import Mathlib

/-!
Verification of the reference-aware recursive deletion and rollback
subsystem of the csm_python content-migration toolkit.

The definitions below are a shallow embedding of:
  * `src/delete_entry_utility.py` (class `EntryDeletionUtility` and `main`),
  * the rollback path of `src/lib/content_processor.py`
    (`rollback_created_entries`, `_analyze_rollback_references`),
  * the call-site behaviour of `src/lib/contentstack_api.py`
    (class `ContentstackAPI`).

Python JSON values are modelled by the inductive type `Json`; the remote
Contentstack service is modelled by a `Gateway` record of response
functions (fallible calls return `Except`); every gateway interaction is
recorded in an event trace threaded through the run state, so that
"zero delete calls are issued" is a statement about the trace.
-/

set_option maxHeartbeats 1000000

namespace CsmDelete

/-- A Python/JSON value, as traversed by the deletion utility.  Objects
are association lists in insertion order (Python 3 dicts preserve
insertion order, which is the iteration order the source relies on). -/
inductive Json where
  | null : Json
  | bool (b : Bool) : Json
  | num (n : Int) : Json
  | str (s : String) : Json
  | arr (items : List Json) : Json
  | obj (fields : List (String × Json)) : Json

/-- First-match association-list lookup: `d.get(key)` on a Python dict
(dict keys are unique, so first match is the only match). -/
def lookupField : List (String × Json) → String → Option Json
  | [], _ => none
  | f :: rest, key => if f.1 = key then some f.2 else lookupField rest key

/-- `obj.get(key)` — `none` when the key is absent or the value is not a
dict. -/
def Json.get : Json → String → Option Json
  | .obj fields, key => lookupField fields key
  | _, _ => none

/-- Python truthiness of a JSON value (`bool(x)`). -/
def pyTruthy : Json → Bool
  | .null => false
  | .bool b => b
  | .num n => n ≠ 0
  | .str s => s ≠ ""
  | .arr items => !items.isEmpty
  | .obj fields => !fields.isEmpty

/-- `j == s` for a Python string `s`: true exactly when `j` is that
string (Python equality between a string and any non-string is false). -/
def jsonIsStr (j : Json) (s : String) : Bool :=
  match j with
  | .str t => t = s
  | _ => false

mutual
/-- Structural equality of JSON values (Python `==` on JSON-shaped data,
also the equality induced by the source's `json.dumps`-keyed set). -/
def jsonBeq : Json → Json → Bool
  | .null, .null => true
  | .bool a, .bool b => a = b
  | .num a, .num b => a = b
  | .str a, .str b => a = b
  | .arr a, .arr b => jsonListBeq a b
  | .obj a, .obj b => jsonFieldsBeq a b
  | _, _ => false

def jsonListBeq : List Json → List Json → Bool
  | [], [] => true
  | x :: xs, y :: ys => jsonBeq x y && jsonListBeq xs ys
  | _, _ => false

def jsonFieldsBeq : List (String × Json) → List (String × Json) → Bool
  | [], [] => true
  | (k1, v1) :: xs, (k2, v2) :: ys => k1 = k2 && jsonBeq v1 v2 && jsonFieldsBeq xs ys
  | _, _ => false
end

mutual
/-- Python `str(x)` for the values that can appear as `_content_type_uid`
or `uid` markers.  Exact for the scalar cases (the only realistic ones);
containers are rendered in a bracketed best-effort form. -/
def pyStr : Json → String
  | .str s => s
  | other => pyRepr other

def pyRepr : Json → String
  | .null => "None"
  | .bool true => "True"
  | .bool false => "False"
  | .num n => toString n
  | .str s => (Char.ofNat 39).toString ++ s ++ (Char.ofNat 39).toString
  | .arr items => "[" ++ pyReprList items ++ "]"
  | .obj fields => "\x7b" ++ pyReprFields fields ++ "\x7d"

def pyReprList : List Json → String
  | [] => ""
  | [x] => pyRepr x
  | x :: xs => pyRepr x ++ ", " ++ pyReprList xs

def pyReprFields : List (String × Json) → String
  | [] => ""
  | [(k, v)] => (Char.ofNat 39).toString ++ k ++ (Char.ofNat 39).toString ++ ": " ++ pyRepr v
  | (k, v) :: xs =>
      (Char.ofNat 39).toString ++ k ++ (Char.ofNat 39).toString ++ ": " ++ pyRepr v
        ++ ", " ++ pyReprFields xs
end

/-- The migration-marker check from `analyze_entry_references`
(`delete_entry_utility.py` lines 173-177): the fetched entry has a
`tags` field that is a list containing the string `migrated-from-cms`. -/
def check_migration_tag (entry : Json) : Bool :=
  match entry.get "tags" with
  | some (.arr tags) => tags.any (fun t => jsonIsStr t "migrated-from-cms")
  | _ => false

/-- Referring-entry id extraction from a referrer descriptor
(`delete_entry_utility.py` lines 199-200 and
`content_processor.py` lines 289-293):
`ref.get('entry_uid') or ref.get('uid') or
 (ref.get('entry', {}).get('uid') if isinstance(ref.get('entry'), dict) else None)` —
Python `or` falls through on falsy values and the final operand is
returned even when falsy. -/
def refEntryUid (ref : Json) : Json :=
  let x1 := (ref.get "entry_uid").getD .null
  if pyTruthy x1 then x1
  else
    let x2 := (ref.get "uid").getD .null
    if pyTruthy x2 then x2
    else
      match ref.get "entry" with
      | some (.obj efields) => (lookupField efields "uid").getD .null
      | _ => .null

/-- Map key for an entry: the `f"{content_type_uid}/{entry_uid}"` string
used throughout `delete_entry_utility.py`. -/
def entryKey (ct uid : String) : String := ct ++ "/" ++ uid

/-- Python `k in s` for a set of strings modelled as a list. -/
def keyMem (l : List String) (k : String) : Bool := l.any (fun x => x = k)

/-- Add to a Python `set` modelled as a duplicate-free list in first
insertion order (`s.add(k)`). -/
def addKey (l : List String) (k : String) : List String :=
  if keyMem l k then l else l ++ [k]

/-- Lookup in a Python dict modelled as an association list. -/
def mapLookup {α : Type} : List (String × α) → String → Option α
  | [], _ => none
  | f :: rest, key => if f.1 = key then some f.2 else mapLookup rest key

/-- `d[key] = v` on a Python dict: overwrite the existing binding or
append a new one. -/
def mapSet {α : Type} (m : List (String × α)) (key : String) (v : α) :
    List (String × α) :=
  if m.any (fun p => p.1 = key) then
    m.map (fun p => if p.1 = key then (key, v) else p)
  else m ++ [(key, v)]

/-- One gateway interaction, recorded in the run trace in the order the
HTTP requests are issued. -/
inductive Event where
  | getEntryCall (ct uid : String)
  | refQueryCall (ct uid : String)
  | deleteCall (ct uid : String)
deriving DecidableEq, Repr

/-- A reference-analysis verdict: the dict
`{to_be_deleted, references, reason, has_migration_tag}` stored in
`self.reference_analysis` by `delete_entry_utility.py`. -/
structure Verdict where
  to_be_deleted : Bool
  references : List Json
  reason : String
  has_migration_tag : Bool

/-- The result dict of `ContentstackAPI.delete_entry` as consumed by
`recursively_delete_entry` via `result.get('success')`,
`result.get('already_deleted')`, `result.get('protected')` and
`result.get('error', 'Unknown error')`.  The method catches all its own
exceptions and always returns such a dict. -/
structure DeleteResult where
  success : Bool
  already_deleted : Bool
  protectedFlag : Bool
  error : Option String

/-- The Entry Store Gateway as consumed by the deletion/rollback core.
`getEntry` and `deleteEntry` model `ContentstackAPI.get_entry` /
`ContentstackAPI.delete_entry` (the former raises on HTTP errors, hence
`Except`; the response JSON carries the entry under the `entry` key). -/
structure Gateway where
  getEntry : String → String → Except String Json
  /-- Modelled from the spec: `ContentstackAPI` defines no
  `get_entry_references` method, although `analyze_entry_references`
  (`delete_entry_utility.py` line 193) and `_analyze_rollback_references`
  (`content_processor.py` line 276) call it. This field follows the
  spec's gateway interface `list_referrers(content_type_id, entry_id) ->
  list<referrer_descriptor>`, returned as the list the call sites read
  via `references_result.get('references', [])`; a raised exception is
  an `Except.error`. The shipped class always raises `AttributeError`,
  captured below by `shippedGateway`. -/
  getEntryReferences : String → String → Except String (List Json)
  deleteEntry : String → String → DeleteResult

/-- The message of the `AttributeError` raised when calling the missing
`get_entry_references` method on the shipped `ContentstackAPI` class
(quotes elided). -/
def missingRefsMsg : String :=
  "ContentstackAPI object has no attribute get_entry_references"

/-- The gateway realised by the shipped `ContentstackAPI` class: entry
fetches and deletes behave as the service dictates, but every referrer
query raises `AttributeError` because the class defines no
`get_entry_references` method. -/
def shippedGateway (ge : String → String → Except String Json)
    (de : String → String → DeleteResult) : Gateway :=
  { getEntry := ge
    getEntryReferences := fun _ _ => .error missingRefsMsg
    deleteEntry := de }

/-- The backup record stored per entry key by `backup_entry_recursively`
(the wall-clock `timestamp` field is elided from the model). -/
structure BackupRecord where
  content_type_uid : String
  entry_uid : String
  cleaned_data : Json

/-- The backup-only fields of the run state (`backed_up_entries`,
`backup_file_path`), grouped so that their independence from the
analysis/deletion fields can be stated once. -/
structure BackupPart where
  backed_up_entries : List (String × BackupRecord)
  backup_file_path : Option String

/-- The run state of `EntryDeletionUtility` (constructor,
`delete_entry_utility.py` lines 28-43), plus the gateway-event trace.
Python sets are duplicate-free lists in first-insertion order; dicts are
association lists. -/
structure DelState where
  dry_run : Bool
  deleted_entries : List String
  failed_deletions : List (String × String)
  processed_entries : List String
  would_delete_entries : List String
  reference_analysis : List (String × Verdict)
  referenced_entries : List String
  orphaned_entries : List String
  reference_analysis_completed : Bool
  bk : BackupPart
  trace : List Event

/-- The fresh run state built by `EntryDeletionUtility.__init__`. -/
def initState (dry : Bool) : DelState :=
  { dry_run := dry
    deleted_entries := []
    failed_deletions := []
    processed_entries := []
    would_delete_entries := []
    reference_analysis := []
    referenced_entries := []
    orphaned_entries := []
    reference_analysis_completed := false
    bk := { backed_up_entries := [], backup_file_path := none }
    trace := [] }

/-- `fetch_entry_details` (`delete_entry_utility.py` lines 106-118):
issue a `get_entry` call; on exception or a falsy/absent `entry` key in
the response, return `none`. -/
def fetch_entry_details (gw : Gateway) (st : DelState) (ct uid : String) :
    DelState × Option Json :=
  let st := { st with trace := st.trace ++ [Event.getEntryCall ct uid] }
  match gw.getEntry ct uid with
  | .error _ => (st, none)
  | .ok response =>
    match response.get "entry" with
    | none => (st, none)
    | some entry => if pyTruthy entry then (st, some entry) else (st, none)

/-- `analyze_entry_references` (`delete_entry_utility.py` lines 151-237):
memoised per entry key; fetch, check the migration marker, query and
filter referrers, and record a fail-closed verdict on any exception. -/
def analyze_entry_references (gw : Gateway) (ct uid parent_entry_uid : String)
    (st : DelState) : DelState × Verdict :=
  let key := entryKey ct uid
  match mapLookup st.reference_analysis key with
  | some v => (st, v)
  | none =>
    let (st, entryOpt) := fetch_entry_details gw st ct uid
    match entryOpt with
    | none =>
      let v : Verdict :=
        { to_be_deleted := false, references := [],
          reason := "Entry not found", has_migration_tag := false }
      ({ st with reference_analysis := mapSet st.reference_analysis key v }, v)
    | some entry =>
      if check_migration_tag entry then
        let st := { st with trace := st.trace ++ [Event.refQueryCall ct uid] }
        match gw.getEntryReferences ct uid with
        | .error e =>
          let v : Verdict :=
            { to_be_deleted := false, references := [],
              reason := "Analysis error: " ++ e, has_migration_tag := false }
          ({ st with
              reference_analysis := mapSet st.reference_analysis key v,
              referenced_entries := addKey st.referenced_entries key }, v)
        | .ok allRefs =>
          let externalRefs :=
            allRefs.filter (fun r => !(jsonIsStr (refEntryUid r) parent_entry_uid))
          if externalRefs.length > 0 then
            let v : Verdict :=
              { to_be_deleted := false, references := externalRefs,
                reason := "Referenced in " ++ toString externalRefs.length
                            ++ " other entries",
                has_migration_tag := true }
            ({ st with
                reference_analysis := mapSet st.reference_analysis key v,
                referenced_entries := addKey st.referenced_entries key }, v)
          else
            let v : Verdict :=
              { to_be_deleted := true, references := [],
                reason := "No external references found",
                has_migration_tag := true }
            ({ st with
                reference_analysis := mapSet st.reference_analysis key v,
                orphaned_entries := addKey st.orphaned_entries key }, v)
      else
        let v : Verdict :=
          { to_be_deleted := false, references := [],
            reason := "Missing migrated-from-cms tag",
            has_migration_tag := false }
        ({ st with
            reference_analysis := mapSet st.reference_analysis key v,
            referenced_entries := addKey st.referenced_entries key }, v)

/-- Membership-respecting insertion into the discovered-reference set
(the source keys its `found_entries` set by `json.dumps` of the
`{'contentTypeUid', 'uid'}` pair, so two pairs collide exactly when both
components are equal JSON values). -/
def addPair (acc : List (Json × Json)) (ct uid : Json) : List (Json × Json) :=
  if acc.any (fun p => jsonBeq p.1 ct && jsonBeq p.2 uid) then acc
  else acc ++ [(ct, uid)]

mutual
/-- `find_nested_entries` (`delete_entry_utility.py` lines 120-149):
collect every `(contentTypeUid, uid)` pair of a dict carrying both
`_content_type_uid` and `uid`, recursing into all values except those of
the two marker keys.  The source's extra recursion into a dict-valued
`entry` field is omitted: the generic value loop already descends into
`entry` (it is not a marker key), and the result is a set, so the double
visit adds no element.  The accumulator keeps first-discovery order. -/
def find_nested_entries : Json → List (Json × Json) → List (Json × Json)
  | .arr items, acc => findNestedList items acc
  | .obj fields, acc =>
    let acc :=
      match lookupField fields "_content_type_uid", lookupField fields "uid" with
      | some ct, some uid => addPair acc ct uid
      | _, _ => acc
    findNestedFields fields acc
  | _, acc => acc

def findNestedList : List Json → List (Json × Json) → List (Json × Json)
  | [], acc => acc
  | x :: xs, acc => findNestedList xs (find_nested_entries x acc)

def findNestedFields : List (String × Json) → List (Json × Json) → List (Json × Json)
  | [], acc => acc
  | (k, v) :: rest, acc =>
    let acc :=
      if k = "_content_type_uid" ∨ k = "uid" then acc
      else find_nested_entries v acc
    findNestedFields rest acc
end

/-- The inherited-protection verdict written by
`traverse_hierarchy_root_first` (lines 259-264) for entries nested under
a protected parent. -/
def inheritedVerdict (parentKey : String) : Verdict :=
  { to_be_deleted := false, references := [],
    reason := "Inherited protection from parent " ++ parentKey,
    has_migration_tag := false }

/-- `parent_for_filtering = immediate_parent_uid or root_entry_uid`
(`delete_entry_utility.py` line 248): Python `or` falls back on a falsy
(absent or empty-string) immediate parent. -/
def parentForFiltering (imm : Option String) (root : String) : String :=
  match imm with
  | some p => if p = "" then root else p
  | none => root

/-- The protected-parent branch of `traverse_hierarchy_root_first`
(lines 252-267): give every discovered nested entry without a recorded
verdict an inherited-protection verdict and mark it referenced. -/
def inheritLoop (parentKey : String) :
    List (Json × Json) → DelState → DelState
  | [], st => st
  | (ctJ, uidJ) :: rest, st =>
    let nestedKey := pyStr ctJ ++ "/" ++ pyStr uidJ
    let st :=
      if (mapLookup st.reference_analysis nestedKey).isSome then st
      else
        { st with
            reference_analysis :=
              mapSet st.reference_analysis nestedKey (inheritedVerdict parentKey),
            referenced_entries := addKey st.referenced_entries nestedKey }
    inheritLoop parentKey rest st

/-- The child loop of `traverse_hierarchy_root_first` (lines 270-285):
fetch each discovered child and walk it; any exception raised by a
child's walk (in Python, only `RecursionError`) is caught by the loop's
`except` and the loop continues. `walk` returns the mutated state plus a
raised-exception flag that the loop discards. -/
def traverseChildLoop (gw : Gateway)
    (walk : String → String → Json → Option String → DelState → DelState × Bool)
    (entry_uid : String) :
    List (Json × Json) → DelState → DelState
  | [], st => st
  | (ctJ, uidJ) :: rest, st =>
    let nct := pyStr ctJ
    let nuid := pyStr uidJ
    let (st, dataOpt) := fetch_entry_details gw st nct nuid
    let st :=
      match dataOpt with
      | some d => (walk nct nuid d (some entry_uid) st).1
      | none => st
    traverseChildLoop gw walk entry_uid rest st

/-- `traverse_hierarchy_root_first` (`delete_entry_utility.py` lines
239-285).  The `Nat` argument is the Python call-stack budget: at 0 the
call itself raises `RecursionError` (flag `true`); the recursion-depth
limit is the only exception this function can raise, everything inside
its body handles its own errors. `immediate_parent_uid or root_entry_uid`
falls back on falsy (absent or empty-string) parents. -/
def traverse_hierarchy_root_first (gw : Gateway) :
    Nat → String → String → Json → String → Option String → DelState →
    DelState × Bool
  | 0, _, _, _, _, _, st => (st, true)
  | fuel + 1, ct, uid, entry_data, root_entry_uid, immediate_parent_uid, st =>
    let key := entryKey ct uid
    if (mapLookup st.reference_analysis key).isSome then (st, false)
    else
      let parent_for_filtering := parentForFiltering immediate_parent_uid root_entry_uid
      let (st, verdict) := analyze_entry_references gw ct uid parent_for_filtering st
      if verdict.to_be_deleted then
        (traverseChildLoop gw
          (fun c u d p s =>
            traverse_hierarchy_root_first gw fuel c u d root_entry_uid p s)
          uid (find_nested_entries entry_data []) st, false)
      else
        (inheritLoop key (find_nested_entries entry_data []) st, false)

/-- `analyze_entry_hierarchy_for_references` (lines 287-308): fetch the
root, walk the hierarchy, and set `reference_analysis_completed`; a
missing root or an escaping exception leaves the flag `false` and
returns `False`. -/
def analyze_entry_hierarchy_for_references (gw : Gateway) (fuel : Nat)
    (ct uid : String) (st : DelState) : DelState × Bool :=
  let (st, rootOpt) := fetch_entry_details gw st ct uid
  match rootOpt with
  | none => (st, false)
  | some root_entry_data =>
    let (st, raised) :=
      traverse_hierarchy_root_first gw fuel ct uid root_entry_data uid none st
    if raised then ({ st with reference_analysis_completed := false }, false)
    else ({ st with reference_analysis_completed := true }, true)

/-- The return dict of `recursively_delete_entry`:
`{'skipped': True[, 'reason': r]}`, `{'success': True}` or
`{'success': False, 'error': e}`. -/
inductive RDel where
  | skipped (reason : Option String)
  | ok
  | failed (e : String)
deriving DecidableEq, Repr

/-- How one call of `recursively_delete_entry` terminates: a normal
return, or an exception propagating out of the call (only the
`RecursionError` raised on entry when the stack budget is exhausted —
everything else is caught by the function's own `try`). -/
inductive RStep where
  | ret (r : RDel)
  | exc (msg : String)
deriving DecidableEq, Repr

mutual
/-- `_process_nested_entries` (`delete_entry_utility.py` lines 484-498):
a dict carrying both marker keys is deleted as a nested entry (its other
values are not scanned); any other dict/list is traversed value by
value.  `delFn` is the recursive deletion; an exception it raises
unwinds the remaining traversal, so the helpers return the propagating
message alongside the state. -/
def process_nested_entries
    (delFn : String → String → DelState → DelState × RStep) :
    Json → DelState → DelState × Option String
  | .obj fields, st =>
    (match lookupField fields "_content_type_uid", lookupField fields "uid" with
     | some ctJ, some uidJ =>
       (match delFn (pyStr ctJ) (pyStr uidJ) st with
        | (st, .ret _) => (st, none)
        | (st, .exc m) => (st, some m))
     | _, _ => processNestedFields delFn fields st)
  | .arr items, st => processNestedList delFn items st
  | _, st => (st, none)

def processNestedList
    (delFn : String → String → DelState → DelState × RStep) :
    List Json → DelState → DelState × Option String
  | [], st => (st, none)
  | x :: xs, st =>
    match process_nested_entries delFn x st with
    | (st, none) => processNestedList delFn xs st
    | (st, some m) => (st, some m)

def processNestedFields
    (delFn : String → String → DelState → DelState × RStep) :
    List (String × Json) → DelState → DelState × Option String
  | [], st => (st, none)
  | (_, v) :: rest, st =>
    match process_nested_entries delFn v st with
    | (st, none) => processNestedFields delFn rest st
    | (st, some m) => (st, some m)
end

/-- The `try` block of `recursively_delete_entry`
(`delete_entry_utility.py` lines 441-482), entered after the
processed-set insertion and the safety gate: fetch the entry (the raw
`get_entry` call, which raises on failure), process its nested entries
(`delFn` is the recursive deletion), then delete or dry-run the node;
every exception is recorded in `failed_deletions` for this node only. -/
def rdeCore (gw : Gateway)
    (delFn : String → String → DelState → DelState × RStep)
    (ct uid : String) (st : DelState) : DelState × RStep :=
  let key := entryKey ct uid
  let st := { st with trace := st.trace ++ [Event.getEntryCall ct uid] }
  match gw.getEntry ct uid with
  | .error e =>
    ({ st with failed_deletions := mapSet st.failed_deletions key e },
     .ret (.failed e))
  | .ok entry_data =>
    let entry := (entry_data.get "entry").getD (.obj [])
    let (st, excOpt) := process_nested_entries delFn entry st
    match excOpt with
    | some m =>
      ({ st with failed_deletions := mapSet st.failed_deletions key m },
       .ret (.failed m))
    | none =>
      if st.dry_run then
        ({ st with
            would_delete_entries := addKey st.would_delete_entries key },
         .ret .ok)
      else
        let st := { st with trace := st.trace ++ [Event.deleteCall ct uid] }
        let result := gw.deleteEntry ct uid
        if result.success then
          ({ st with deleted_entries := addKey st.deleted_entries key },
           .ret .ok)
        else if result.protectedFlag then
          ({ st with
              failed_deletions :=
                mapSet st.failed_deletions key
                  "Protected entry - requires manual deletion" },
           .ret .ok)
        else
          ({ st with
              failed_deletions :=
                mapSet st.failed_deletions key
                  (result.error.getD "Unknown error") },
           .ret .ok)

/-- The safety gate of `recursively_delete_entry` (lines 429-439): only
enforced when the analysis phase completed; `some r` aborts the call
with a skip outcome, `none` lets the deletion proceed. -/
def safetyGate (st : DelState) (key : String) : Option RDel :=
  if st.reference_analysis_completed then
    match mapLookup st.reference_analysis key with
    | none => some (.skipped (some "Not analyzed"))
    | some a => if a.to_be_deleted then none else some (.skipped (some a.reason))
  else none

/-- `recursively_delete_entry` (`delete_entry_utility.py` lines 419-482):
skip already-processed keys, enforce the safety gate when analysis
completed, then run the `try` block (`rdeCore`).  The `Nat` argument is
the call-stack budget; at 0 the call raises `RecursionError` (message as
`str(RecursionError(...))`), which the caller's `try` catches. -/
def recursively_delete_entry (gw : Gateway) :
    Nat → String → String → DelState → DelState × RStep
  | 0, _, _, st => (st, .exc "maximum recursion depth exceeded")
  | fuel + 1, ct, uid, st =>
    let key := entryKey ct uid
    if keyMem st.processed_entries key then (st, .ret (.skipped none))
    else
      let st := { st with processed_entries := addKey st.processed_entries key }
      match safetyGate st key with
      | some r => (st, .ret r)
      | none =>
        rdeCore gw (fun c u s => recursively_delete_entry gw fuel c u s) ct uid st

/-- `backup_entry_recursively` (lines 500-526): fetch the root entry and
store its cleaned body; any exception makes the backup fail (return
`false`) without touching the rest of the state.  `cleanup` stands for
`JSONCleanup(self.contentstack_api).cleanup_json`: it only produces the
cleaned payload (it issues no delete calls and touches no run state), so
it is modelled as an oracle; a raised exception (e.g. `RecursionError`)
is an `Except.error`. -/
def backup_entry_recursively (gw : Gateway)
    (cleanup : Json → Except String Json) (ct uid : String) (st : DelState) :
    DelState × Bool :=
  let key := entryKey ct uid
  let st := { st with trace := st.trace ++ [Event.getEntryCall ct uid] }
  match gw.getEntry ct uid with
  | .error _ => (st, false)
  | .ok entry_data =>
    let entry := (entry_data.get "entry").getD (.obj [])
    match cleanup entry with
    | .error _ => (st, false)
    | .ok cleaned =>
      ({ st with
          bk := { st.bk with
            backed_up_entries :=
              mapSet st.bk.backed_up_entries key
                { content_type_uid := ct, entry_uid := uid,
                  cleaned_data := cleaned } } },
       true)

/-- `save_backup_to_file` (lines 528-550): when the root entry has a
stored backup, write the file and record its path (the timestamped file
name is elided to a fixed pattern; file-system I/O is outside the
model). -/
def save_backup_to_file (st : DelState) (root_entry_uid ct : String) : DelState :=
  match mapLookup st.bk.backed_up_entries (entryKey ct root_entry_uid) with
  | some _ =>
    { st with
        bk := { st.bk with
          backup_file_path :=
            some ("temp/backup_" ++ ct ++ "_" ++ root_entry_uid ++ ".json") } }
  | none => st

/-- The summary dict returned by `delete_entry_recursively`; the failure
dicts carry only `success`, `error` and the two ids, so every other
field is empty there (wall-clock `duration` and `timestamp` are outside
the model). -/
structure Summary where
  success : Bool
  error : Option String
  entry_uid : String
  content_type_uid : String
  dry_run : Bool
  deleted_entries : List String
  would_delete_entries : List String
  failed_deletions : List (String × String)
  total_deleted : Nat
  total_would_delete : Nat
  total_failed : Nat
  backup_total : Nat
  backup_file_path : Option String
  backup_success : Bool

/-- `content_type_uid = 'feature_page'` when the argument is falsy
(`delete_entry_utility.py` lines 331-332). -/
def defaultContentType (content_type_opt : Option String) : String :=
  match content_type_opt with
  | some c => if c = "" then "feature_page" else c
  | none => "feature_page"

/-- `delete_entry_recursively` (`delete_entry_utility.py` lines 310-417):
default the content type, back up (failure is a warning only), run the
reference analysis, abort fail-closed when it did not complete, then
delete recursively and build the summary. -/
def delete_entry_recursively (gw : Gateway)
    (cleanup : Json → Except String Json) (fuel : Nat) (entry_uid : String)
    (content_type_opt : Option String) (st : DelState) : DelState × Summary :=
  let ct := defaultContentType content_type_opt
  let (st, backup_success) := backup_entry_recursively gw cleanup ct entry_uid st
  let st := if backup_success then save_backup_to_file st entry_uid ct else st
  let (st, analysis_success) :=
    analyze_entry_hierarchy_for_references gw fuel ct entry_uid st
  if !analysis_success || !st.reference_analysis_completed then
    (st,
     { success := false, error := some "Reference analysis failed",
       entry_uid := entry_uid, content_type_uid := ct, dry_run := st.dry_run,
       deleted_entries := [], would_delete_entries := [], failed_deletions := [],
       total_deleted := 0, total_would_delete := 0, total_failed := 0,
       backup_total := 0, backup_file_path := none, backup_success := false })
  else
    let (st, _) := recursively_delete_entry gw fuel ct entry_uid st
    (st,
     { success := true, error := none,
       entry_uid := entry_uid, content_type_uid := ct, dry_run := st.dry_run,
       deleted_entries := st.deleted_entries,
       would_delete_entries := st.would_delete_entries,
       failed_deletions := st.failed_deletions,
       total_deleted := st.deleted_entries.length,
       total_would_delete := st.would_delete_entries.length,
       total_failed := st.failed_deletions.length,
       backup_total := st.bk.backed_up_entries.length,
       backup_file_path := st.bk.backup_file_path,
       backup_success := st.bk.backed_up_entries.length > 0 })

/-- One element of `ContentProcessor.created_entries`
(`content_processor.py` line 66): `{uid, content_type, title}`. -/
structure CreatedEntry where
  uid : String
  content_type : String
  title : String
deriving DecidableEq, Repr

/-- The per-entry verdict dict built by `_analyze_rollback_references`
(`content_processor.py` lines 300-323): `{to_be_deleted, references,
reason}`. -/
structure RollVerdict where
  to_be_deleted : Bool
  references : List Json
  reason : String

/-- The batch-exclusion test of `_analyze_rollback_references`
(lines 287-298): a referrer counts as external when its extracted id is
truthy and is not the uid of any entry created in this batch. -/
def isExternalToBatch (created_entry_uids : List String) (ref : Json) : Bool :=
  let r := refEntryUid ref
  pyTruthy r && !(created_entry_uids.any (fun u => jsonIsStr r u))

/-- One iteration of the `_analyze_rollback_references` loop
(`content_processor.py` lines 271-323): query the entry's referrers,
exclude referrers belonging to the created batch, classify; a
reference-check exception defaults the entry to protected
(fail-closed). -/
def rollbackAnalyzeStep (gw : Gateway) (created_entry_uids : List String)
    (acc : List (String × RollVerdict)) (entry : CreatedEntry) :
    List (String × RollVerdict) :=
  let key := entryKey entry.content_type entry.uid
  match gw.getEntryReferences entry.content_type entry.uid with
  | .error e =>
    mapSet acc key
      { to_be_deleted := false, references := [],
        reason := "Reference check failed: " ++ e
                    ++ " - assuming protected for safety" }
  | .ok all_references =>
    let external_references := all_references.filter (isExternalToBatch created_entry_uids)
    if external_references.length > 0 then
      mapSet acc key
        { to_be_deleted := false, references := external_references,
          reason := "Referenced in " ++ toString external_references.length
                      ++ " external entries (not created in this batch)" }
    else
      mapSet acc key
        { to_be_deleted := true, references := [],
          reason := "No external references found - safe to delete" }

/-- `_analyze_rollback_references` (`content_processor.py` lines
259-325): fold the per-entry classification over the created batch; the
exclusion set is the uid of every created entry. -/
def analyze_rollback_references (gw : Gateway) (created_entries : List CreatedEntry) :
    List (String × RollVerdict) :=
  created_entries.foldl
    (rollbackAnalyzeStep gw (created_entries.map (·.uid))) []

/-- The observable outcome of `rollback_created_entries`: the partition,
the counters, and the delete calls issued (in order). -/
structure RollbackResult where
  safe_to_delete : List CreatedEntry
  protected_entries : List (CreatedEntry × String)
  deleted_count : Nat
  failed_count : Nat
  skipped_count : Nat
  trace : List Event

/-- The deletion pass of `rollback_created_entries` (lines 218-238):
iterate the safe list from its last element to its first, issuing one
gateway delete per entry; `ContentstackAPI.delete_entry` returns a
result dict rather than raising. -/
def rollbackDeleteLoop (gw : Gateway) :
    List CreatedEntry → Nat × Nat × List Event → Nat × Nat × List Event
  | [], acc => acc
  | entry :: rest, (deleted, failed, tr) =>
    let tr := tr ++ [Event.deleteCall entry.content_type entry.uid]
    let r := gw.deleteEntry entry.content_type entry.uid
    let acc := if r.success then (deleted + 1, failed, tr) else (deleted, failed + 1, tr)
    rollbackDeleteLoop gw rest acc

/-- `reference_analysis.get(entry_key, {'to_be_deleted': False, 'reason':
'Unknown'})` (`content_processor.py` line 190). -/
def rollbackVerdictOf (reference_analysis : List (String × RollVerdict))
    (entry : CreatedEntry) : RollVerdict :=
  (mapLookup reference_analysis (entryKey entry.content_type entry.uid)).getD
    { to_be_deleted := false, references := [], reason := "Unknown" }

/-- `rollback_created_entries` (`content_processor.py` lines 163-257):
nothing to do for an empty batch; otherwise analyze references for the
whole batch, partition into safe / protected (an entry missing from the
analysis map defaults to protected with reason `Unknown`), and delete
the safe set in reverse creation order. -/
def rollback_created_entries (gw : Gateway) (created_entries : List CreatedEntry) :
    RollbackResult :=
  if created_entries.isEmpty then
    { safe_to_delete := [], protected_entries := [], deleted_count := 0,
      failed_count := 0, skipped_count := 0, trace := [] }
  else
    let reference_analysis := analyze_rollback_references gw created_entries
    let safe_to_delete :=
      created_entries.filter
        (fun entry => (rollbackVerdictOf reference_analysis entry).to_be_deleted)
    let protected_entries :=
      (created_entries.filter
        (fun entry =>
          !(rollbackVerdictOf reference_analysis entry).to_be_deleted)).map
        (fun entry => (entry, (rollbackVerdictOf reference_analysis entry).reason))
    let (deleted, failed, tr) :=
      rollbackDeleteLoop gw safe_to_delete.reverse (0, 0, [])
    { safe_to_delete := safe_to_delete, protected_entries := protected_entries,
      deleted_count := deleted, failed_count := failed,
      skipped_count := protected_entries.length, trace := tr }

/-- The environments accepted by `main`
(`delete_entry_utility.py` line 592). -/
def validEnvironments : List String := ["dev", "USBC", "USBD", "CABC", "CABD"]

/-- The content-type argument of `main`: the third non-flag argument
when present (`delete_entry_utility.py` lines 586-589). -/
def parsedContentType (args : List String) : Option String :=
  let non_flag_args := args.filter (fun a => !(a.startsWith "--"))
  if non_flag_args.length > 2 then some (non_flag_args.getD 2 "") else none

/-- Python `str.strip()` on the confirmation line
(`delete_entry_utility.py` line 612): drop whitespace from both ends. -/
def pyStrip (s : String) : String :=
  String.mk (((s.data.dropWhile Char.isWhitespace).reverse.dropWhile
      Char.isWhitespace).reverse)

/-- The process exit code of `main` (`delete_entry_utility.py` lines
553-641).  `args` is `sys.argv[1:]`; `user_input` is the interactive
confirmation line; `initRes` stands for `utility.initialize()` (it reads
process environment variables and constructs the API client — external
state, so an oracle).  A produced failure summary lacks the `duration`
key, so the summary printing raises `KeyError` and the outer `except`
exits 1; a success summary reaches `sys.exit(0 if result['success'] else
1)`.  User cancellation reaches `sys.exit(0)` (line 616). -/
def main_exit_code (args : List String) (user_input : String)
    (initRes : Except String Unit) (gw : Gateway)
    (cleanup : Json → Except String Json) (fuel : Nat) : Nat :=
  if args.contains "--help" || args.contains "-h" then 0
  else if args.length < 2 then 1
  else if !(validEnvironments.contains (args.getD 1 "")) then 1
  else if !(args.contains "--dry-run") && pyStrip user_input ≠ "DELETE" then 0
  else
    match initRes with
    | .error _ => 1
    | .ok _ =>
      if (delete_entry_recursively gw cleanup fuel (args.headD "")
          (parsedContentType args)
          (initState (args.contains "--dry-run"))).2.success then 0 else 1

/-! ### A concrete three-entry chain, used to exercise the pipeline

Content type `page`, entries `A → B → C` (each child nested in its
parent's payload), all carrying the migration marker; the only referrer
of `B` is `A`, the only referrer of `C` is `B`, and `A` has none. -/

/-- Payload of a chain entry: migration tag plus an optional nested
child reference. -/
def chainPayload (childUid : Option String) : Json :=
  .obj ([("title", .str "t"),
         ("tags", .arr [.str "migrated-from-cms"])] ++
        (match childUid with
         | some c => [("child", .obj [("_content_type_uid", .str "page"),
                                      ("uid", .str c)])]
         | none => []))

/-- Referrer descriptor exposing `entry_uid`. -/
def refOf (uid : String) : Json := .obj [("entry_uid", .str uid)]

/-- Gateway for the `A → B → C` chain. -/
def chainGateway : Gateway :=
  { getEntry := fun ct uid =>
      if ct = "page" then
        if uid = "A" then .ok (.obj [("entry", chainPayload (some "B"))])
        else if uid = "B" then .ok (.obj [("entry", chainPayload (some "C"))])
        else if uid = "C" then .ok (.obj [("entry", chainPayload none)])
        else .error "404 Not Found"
      else .error "404 Not Found"
    getEntryReferences := fun ct uid =>
      if ct = "page" then
        if uid = "A" then .ok []
        else if uid = "B" then .ok [refOf "A"]
        else if uid = "C" then .ok [refOf "B"]
        else .error "404 Not Found"
      else .error "404 Not Found"
    deleteEntry := fun _ _ =>
      { success := true, already_deleted := false, protectedFlag := false,
        error := none } }

/-- A cleanup oracle that succeeds, returning the payload unchanged. -/
def okCleanup : Json → Except String Json := fun j => .ok j

/-- A cleanup oracle that always fails (backup forced to fail). -/
def failCleanup : Json → Except String Json := fun _ => .error "boom"

/-- The delete calls of a trace, in order. -/
def deleteCallsOf (tr : List Event) : List Event :=
  tr.filter (fun e => match e with | .deleteCall _ _ => true | _ => false)

/-- A verdict that clears an entry for deletion (what the analysis phase
records for an orphaned, markered entry). -/
def clearVerdict : Verdict :=
  { to_be_deleted := true, references := [],
    reason := "No external references found", has_migration_tag := true }

/-- The run state after a completed analysis of the chain in which all
three entries were found safe to delete. -/
def chainAnalyzedState : DelState :=
  { initState false with
      reference_analysis :=
        [("page/A", clearVerdict), ("page/B", clearVerdict),
         ("page/C", clearVerdict)],
      orphaned_entries := ["page/A", "page/B", "page/C"],
      reference_analysis_completed := true }

set_option maxHeartbeats 2000000 in
example :
    deleteCallsOf
      (recursively_delete_entry chainGateway 4 "page" "A" chainAnalyzedState).1.trace
      = [.deleteCall "page" "C", .deleteCall "page" "B", .deleteCall "page" "A"] := by
  decide

/-- A gateway for a service that is unreachable: every entry fetch and
referrer query raises, every delete fails. -/
def downGateway : Gateway :=
  { getEntry := fun _ _ => .error "ECONNREFUSED"
    getEntryReferences := fun _ _ => .error "ECONNREFUSED"
    deleteEntry := fun _ _ =>
      { success := false, already_deleted := false, protectedFlag := false,
        error := some "ECONNREFUSED" } }

/-! ## Helper lemmas on the dict/set models -/

theorem mapLookup_map_upd_self {α : Type} (k : String) (v : α) :
    ∀ m : List (String × α), (m.any fun p => p.1 = k) = true →
      mapLookup (m.map fun p => if p.1 = k then (k, v) else p) k = some v
  | [], h => by simp at h
  | p :: rest, h => by
    by_cases hp : p.1 = k
    · simp [mapLookup, hp]
    · have h2 : (rest.any fun p => p.1 = k) = true := by
        simpa [List.any_cons, hp] using h
      simp [mapLookup, hp, mapLookup_map_upd_self k v rest h2]

theorem mapLookup_map_upd_ne {α : Type} (k k2 : String) (v : α) (h : k2 ≠ k) :
    ∀ m : List (String × α),
      mapLookup (m.map fun p => if p.1 = k then (k, v) else p) k2 = mapLookup m k2
  | [] => rfl
  | p :: rest => by
    by_cases hp : p.1 = k
    · have hk2 : ¬ k = k2 := fun he => h he.symm
      have hp2 : ¬ p.1 = k2 := by rw [hp]; exact hk2
      simp [mapLookup, hp, hk2, hp2, mapLookup_map_upd_ne k k2 v h rest]
    · by_cases hq : p.1 = k2
      · have hk2 : ¬ k = k2 := fun he => h he.symm
        simp [mapLookup, hp, hq, h, hk2]
      · simp [mapLookup, hp, hq, mapLookup_map_upd_ne k k2 v h rest]

theorem mapLookup_append_self {α : Type} (k : String) (v : α) :
    ∀ m : List (String × α), (m.any fun p => p.1 = k) = false →
      mapLookup (m ++ [(k, v)]) k = some v
  | [], _ => by simp [mapLookup]
  | p :: rest, h => by
    have hp : ¬ p.1 = k := by
      intro hk
      simp [List.any_cons, hk] at h
    have h2 : (rest.any fun p => p.1 = k) = false := by
      simpa [List.any_cons, hp] using h
    simp [mapLookup, hp, mapLookup_append_self k v rest h2]

theorem mapLookup_append_ne {α : Type} (k k2 : String) (v : α) (h : k2 ≠ k) :
    ∀ m : List (String × α), mapLookup (m ++ [(k, v)]) k2 = mapLookup m k2
  | [] => by
    have : ¬ k = k2 := fun he => h he.symm
    simp [mapLookup, this]
  | p :: rest => by
    by_cases hq : p.1 = k2
    · simp [mapLookup, hq]
    · simp [mapLookup, hq, mapLookup_append_ne k k2 v h rest]

theorem mapLookup_mapSet_self {α : Type} (m : List (String × α)) (k : String) (v : α) :
    mapLookup (mapSet m k v) k = some v := by
  unfold mapSet
  by_cases h : (m.any fun p => p.1 = k) = true
  · simp only [h, if_true]
    exact mapLookup_map_upd_self k v m h
  · simp only [h, if_false]
    exact mapLookup_append_self k v m (by revert h; cases m.any fun p => p.1 = k <;> simp)

theorem mapLookup_mapSet_ne {α : Type} (m : List (String × α)) (k k2 : String) (v : α)
    (h : k2 ≠ k) : mapLookup (mapSet m k v) k2 = mapLookup m k2 := by
  unfold mapSet
  by_cases hany : (m.any fun p => p.1 = k) = true
  · simp only [hany, if_true]
    exact mapLookup_map_upd_ne k k2 v h m
  · simp only [hany, if_false]
    exact mapLookup_append_ne k k2 v h m

theorem keyMem_addKey_self (l : List String) (k : String) :
    keyMem (addKey l k) k = true := by
  unfold addKey
  split
  case isTrue h => exact h
  case isFalse h => simp [keyMem, List.any_append]

theorem keyMem_addKey_mono (l : List String) (k k2 : String)
    (h : keyMem l k2 = true) : keyMem (addKey l k) k2 = true := by
  unfold addKey
  split
  · exact h
  · simp only [keyMem, List.any_append] at h ⊢
    simp [h]

theorem keyMem_addKey_of_ne (l : List String) (k k2 : String) (h : k2 ≠ k) :
    keyMem (addKey l k) k2 = keyMem l k2 := by
  unfold addKey
  split
  · rfl
  · have hd : (decide (k = k2)) = false := decide_eq_false (fun he => h he.symm)
    simp [keyMem, List.any_append, List.any_cons, hd]

/-- The verdict recorded for an orphaned, markered entry. -/
def orphanVerdict : Verdict :=
  { to_be_deleted := true, references := [],
    reason := "No external references found", has_migration_tag := true }

/-- The verdict recorded for an entry without the migration marker. -/
def missingTagVerdict : Verdict :=
  { to_be_deleted := false, references := [],
    reason := "Missing migrated-from-cms tag", has_migration_tag := false }

/-- C2: if entry B's only referrer reported by the gateway is its
traversal parent A, and B carries the migration marker, then
`analyze_entry_references(B, parent=A)` filters out that referrer,
reports zero external references, and returns a verdict with
`to_be_deleted=true` and reason `No external references found`. -/
theorem c2_parent_only_referrer_clears
    (gw : Gateway) (ct uid parentUid : String) (st : DelState)
    (resp entry r : Json)
    (hfresh : mapLookup st.reference_analysis (entryKey ct uid) = none)
    (hget : gw.getEntry ct uid = .ok resp)
    (hentry : resp.get "entry" = some entry)
    (htruthy : pyTruthy entry = true)
    (htag : check_migration_tag entry = true)
    (hrefs : gw.getEntryReferences ct uid = .ok [r])
    (hparent : jsonIsStr (refEntryUid r) parentUid = true) :
    ([r].filter fun x => !(jsonIsStr (refEntryUid x) parentUid)) = [] ∧
    (analyze_entry_references gw ct uid parentUid st).2 = orphanVerdict ∧
    mapLookup (analyze_entry_references gw ct uid parentUid st).1.reference_analysis
      (entryKey ct uid) = some orphanVerdict := by
  have hfilter : ([r].filter fun x => !(jsonIsStr (refEntryUid x) parentUid)) = [] := by
    simp [List.filter, hparent]
  refine ⟨hfilter, ?_, ?_⟩
  · simp only [analyze_entry_references, fetch_entry_details, hfresh, hget, hentry,
      htruthy, htag, hrefs, hfilter, orphanVerdict]
    simp [htag]
  · simp only [analyze_entry_references, fetch_entry_details, hfresh, hget, hentry,
      htruthy, htag, hrefs, hfilter, orphanVerdict]
    simp [htag, mapLookup_mapSet_self]

/-- Witness for `c2_parent_only_referrer_clears` at a concrete input:
entry `page/B` whose single referrer is its parent `A`. -/
theorem c2_parent_only_referrer_clears_witness :
    (analyze_entry_references chainGateway "page" "B" "A" (initState false)).2
      = orphanVerdict := by
  have h := c2_parent_only_referrer_clears chainGateway "page" "B" "A"
    (initState false) (.obj [("entry", chainPayload (some "C"))])
    (chainPayload (some "C")) (refOf "A")
    (by rfl) (by rfl) (by rfl) (by rfl) (by rfl) (by rfl) (by rfl)
  exact h.2.1

/-- C4: an entry whose fetched payload lacks the `migrated-from-cms`
value in its tags list gets a protected verdict regardless of what the
gateway would report for its referrers, is added to
`referenced_entries`, and no referrer query is issued for it (the trace
grows only by the fetch). -/
theorem c4_missing_marker_always_protected
    (gw : Gateway) (ct uid parentUid : String) (st : DelState)
    (resp entry : Json)
    (hfresh : mapLookup st.reference_analysis (entryKey ct uid) = none)
    (hget : gw.getEntry ct uid = .ok resp)
    (hentry : resp.get "entry" = some entry)
    (htruthy : pyTruthy entry = true)
    (htag : check_migration_tag entry = false) :
    (analyze_entry_references gw ct uid parentUid st).2 = missingTagVerdict ∧
    (analyze_entry_references gw ct uid parentUid st).2.to_be_deleted = false ∧
    mapLookup (analyze_entry_references gw ct uid parentUid st).1.reference_analysis
      (entryKey ct uid) = some missingTagVerdict ∧
    keyMem (analyze_entry_references gw ct uid parentUid st).1.referenced_entries
      (entryKey ct uid) = true ∧
    (analyze_entry_references gw ct uid parentUid st).1.trace
      = st.trace ++ [Event.getEntryCall ct uid] := by
  refine ⟨?_, ?_, ?_, ?_, ?_⟩ <;>
    simp only [analyze_entry_references, fetch_entry_details, hfresh, hget, hentry,
      htruthy, htag, missingTagVerdict] <;>
    simp [htag, mapLookup_mapSet_self, keyMem_addKey_self]

/-- Witness for `c4_missing_marker_always_protected`: a tagless entry
fetched from a gateway that would report a referrer list. -/
theorem c4_missing_marker_always_protected_witness :
    (analyze_entry_references
      (shippedGateway (fun _ _ => .ok (.obj [("entry", .obj [("title", .str "t")])]))
        (fun _ _ => { success := true, already_deleted := false,
                      protectedFlag := false, error := none }))
      "page" "X" "P" (initState false)).2 = missingTagVerdict := by
  have h := c4_missing_marker_always_protected
    (shippedGateway (fun _ _ => .ok (.obj [("entry", .obj [("title", .str "t")])]))
      (fun _ _ => { success := true, already_deleted := false,
                    protectedFlag := false, error := none }))
    "page" "X" "P" (initState false)
    (.obj [("entry", .obj [("title", .str "t")])]) (.obj [("title", .str "t")])
    (by rfl) (by rfl) (by rfl) (by rfl) (by rfl)
  exact h.1

/-! ## Lemmas about the inherited-protection loop -/

theorem inheritLoop_frame (pk : String) :
    ∀ (pairs : List (Json × Json)) (st : DelState),
      (inheritLoop pk pairs st).trace = st.trace ∧
      (inheritLoop pk pairs st).dry_run = st.dry_run ∧
      (inheritLoop pk pairs st).deleted_entries = st.deleted_entries ∧
      (inheritLoop pk pairs st).failed_deletions = st.failed_deletions ∧
      (inheritLoop pk pairs st).processed_entries = st.processed_entries ∧
      (inheritLoop pk pairs st).would_delete_entries = st.would_delete_entries ∧
      (inheritLoop pk pairs st).orphaned_entries = st.orphaned_entries ∧
      (inheritLoop pk pairs st).reference_analysis_completed
        = st.reference_analysis_completed ∧
      (inheritLoop pk pairs st).bk = st.bk
  | [], st => by simp [inheritLoop]
  | p :: rest, st => by
    obtain ⟨a, b⟩ := p
    simp only [inheritLoop]
    split <;> exact inheritLoop_frame pk rest _

theorem inheritLoop_keeps (pk : String) :
    ∀ (pairs : List (Json × Json)) (st : DelState) (k : String) (v : Verdict),
      mapLookup st.reference_analysis k = some v →
      mapLookup (inheritLoop pk pairs st).reference_analysis k = some v ∧
      (keyMem st.referenced_entries k = true →
        keyMem (inheritLoop pk pairs st).referenced_entries k = true)
  | [], st, k, v, h => ⟨h, id⟩
  | p :: rest, st, k, v, h => by
    obtain ⟨a, b⟩ := p
    simp only [inheritLoop]
    split
    case isTrue hs => exact inheritLoop_keeps pk rest st k v h
    case isFalse hs =>
      have hne : k ≠ pyStr a ++ "/" ++ pyStr b := by
        intro he
        rw [he] at h
        simp [h] at hs
      exact
        let st2 : DelState :=
          { st with
              reference_analysis :=
                mapSet st.reference_analysis (pyStr a ++ "/" ++ pyStr b)
                  (inheritedVerdict pk),
              referenced_entries :=
                addKey st.referenced_entries (pyStr a ++ "/" ++ pyStr b) }
        have h2 : mapLookup st2.reference_analysis k = some v := by
          show mapLookup (mapSet st.reference_analysis (pyStr a ++ "/" ++ pyStr b)
            (inheritedVerdict pk)) k = some v
          rw [mapLookup_mapSet_ne _ _ _ _ hne]; exact h
        have ih := inheritLoop_keeps pk rest st2 k v h2
        ⟨ih.1, fun hm => ih.2 (keyMem_addKey_mono _ _ _ hm)⟩

theorem inheritLoop_writes (pk : String) :
    ∀ (pairs : List (Json × Json)) (st : DelState) (p : Json × Json),
      p ∈ pairs →
      (mapLookup st.reference_analysis (pyStr p.1 ++ "/" ++ pyStr p.2) = none ∨
        (mapLookup st.reference_analysis (pyStr p.1 ++ "/" ++ pyStr p.2)
          = some (inheritedVerdict pk) ∧
         keyMem st.referenced_entries (pyStr p.1 ++ "/" ++ pyStr p.2) = true)) →
      mapLookup (inheritLoop pk pairs st).reference_analysis
        (pyStr p.1 ++ "/" ++ pyStr p.2) = some (inheritedVerdict pk) ∧
      keyMem (inheritLoop pk pairs st).referenced_entries
        (pyStr p.1 ++ "/" ++ pyStr p.2) = true
  | [], st, p, hmem, _ => by simp at hmem
  | q :: rest, st, p, hmem, hpre => by
    obtain ⟨a, b⟩ := q
    simp only [inheritLoop]
    rcases List.mem_cons.mp hmem with hq | hrest
    · subst hq
      split
      case isTrue hs =>
        rcases hpre with hnone | ⟨hv, hm⟩
        · rw [hnone] at hs; simp at hs
        · exact (inheritLoop_keeps pk rest st _ _ hv).imp id (fun f => f hm)
      case isFalse hs =>
        exact
          let st2 : DelState :=
            { st with
                reference_analysis :=
                  mapSet st.reference_analysis (pyStr a ++ "/" ++ pyStr b)
                    (inheritedVerdict pk),
                referenced_entries :=
                  addKey st.referenced_entries (pyStr a ++ "/" ++ pyStr b) }
          have hw : mapLookup st2.reference_analysis (pyStr a ++ "/" ++ pyStr b)
              = some (inheritedVerdict pk) := mapLookup_mapSet_self _ _ _
          have ih := inheritLoop_keeps pk rest st2 _ _ hw
          ⟨ih.1, ih.2 (keyMem_addKey_self _ _)⟩
    · -- target occurs in the tail
      split
      case isTrue hs => exact inheritLoop_writes pk rest st p hrest hpre
      case isFalse hs =>
        exact
          let st2 : DelState :=
            { st with
                reference_analysis :=
                  mapSet st.reference_analysis (pyStr a ++ "/" ++ pyStr b)
                    (inheritedVerdict pk),
                referenced_entries :=
                  addKey st.referenced_entries (pyStr a ++ "/" ++ pyStr b) }
          if he : (pyStr p.1 ++ "/" ++ pyStr p.2) = (pyStr a ++ "/" ++ pyStr b) then
            have hw : mapLookup st2.reference_analysis (pyStr p.1 ++ "/" ++ pyStr p.2)
                = some (inheritedVerdict pk) := by
              show mapLookup (mapSet st.reference_analysis (pyStr a ++ "/" ++ pyStr b)
                (inheritedVerdict pk)) (pyStr p.1 ++ "/" ++ pyStr p.2)
                = some (inheritedVerdict pk)
              rw [he]; exact mapLookup_mapSet_self _ _ _
            have hm : keyMem st2.referenced_entries (pyStr p.1 ++ "/" ++ pyStr p.2)
                = true := by
              show keyMem (addKey st.referenced_entries (pyStr a ++ "/" ++ pyStr b))
                (pyStr p.1 ++ "/" ++ pyStr p.2) = true
              rw [he]; exact keyMem_addKey_self _ _
            inheritLoop_writes pk rest st2 p hrest (Or.inr ⟨hw, hm⟩)
          else by
            refine inheritLoop_writes pk rest st2 p hrest ?_
            rcases hpre with hnone | ⟨hv, hm⟩
            · left
              show mapLookup (mapSet st.reference_analysis (pyStr a ++ "/" ++ pyStr b)
                (inheritedVerdict pk)) (pyStr p.1 ++ "/" ++ pyStr p.2) = none
              rw [mapLookup_mapSet_ne _ _ _ _ he]; exact hnone
            · right
              refine ⟨?_, keyMem_addKey_mono _ _ _ hm⟩
              show mapLookup (mapSet st.reference_analysis (pyStr a ++ "/" ++ pyStr b)
                (inheritedVerdict pk)) (pyStr p.1 ++ "/" ++ pyStr p.2)
                = some (inheritedVerdict pk)
              rw [mapLookup_mapSet_ne _ _ _ _ he]; exact hv

/-- C7: if the walker's analysis of a node yields `to_be_deleted=false`,
every nested entry discoverable in its payload without a recorded
verdict receives the inherited-protection verdict naming that parent and
is added to `referenced_entries`, and no further gateway call of any
kind is made (the walk does not recurse below a protected node): the
trace after the walk is exactly the trace after the node's own
analysis. -/
theorem c7_protected_node_inherits
    (gw : Gateway) (fuel : Nat) (ct uid : String) (entry_data : Json)
    (root : String) (imm : Option String) (st : DelState)
    (hfresh : mapLookup st.reference_analysis (entryKey ct uid) = none)
    (hprot : (analyze_entry_references gw ct uid (parentForFiltering imm root)
        st).2.to_be_deleted = false) :
    (traverse_hierarchy_root_first gw (fuel + 1) ct uid entry_data root imm st).2
      = false ∧
    (traverse_hierarchy_root_first gw (fuel + 1) ct uid entry_data root imm
        st).1.trace
      = (analyze_entry_references gw ct uid (parentForFiltering imm root) st).1.trace ∧
    ∀ p ∈ find_nested_entries entry_data [],
      mapLookup (analyze_entry_references gw ct uid (parentForFiltering imm root)
          st).1.reference_analysis (pyStr p.1 ++ "/" ++ pyStr p.2) = none →
      mapLookup (traverse_hierarchy_root_first gw (fuel + 1) ct uid entry_data root
          imm st).1.reference_analysis (pyStr p.1 ++ "/" ++ pyStr p.2)
        = some (inheritedVerdict (entryKey ct uid)) ∧
      keyMem (traverse_hierarchy_root_first gw (fuel + 1) ct uid entry_data root
          imm st).1.referenced_entries (pyStr p.1 ++ "/" ++ pyStr p.2) = true := by
  rcases hsplit : analyze_entry_references gw ct uid (parentForFiltering imm root) st
    with ⟨st1, v⟩
  rw [hsplit] at hprot
  have hp2 : v.to_be_deleted = false := hprot
  have hred : traverse_hierarchy_root_first gw (fuel + 1) ct uid entry_data root imm st
      = (inheritLoop (entryKey ct uid) (find_nested_entries entry_data []) st1,
         false) := by
    simp only [traverse_hierarchy_root_first, hfresh, Option.isSome_none,
      Bool.false_eq_true, if_false, hsplit, hp2]
  rw [hred]
  refine ⟨rfl, (inheritLoop_frame _ _ _).1, ?_⟩
  intro p hp hnone
  exact inheritLoop_writes (entryKey ct uid) _ st1 p hp (Or.inl hnone)

/-- A gateway whose root entry `page/R` lacks the migration marker and
nests the child `page/K` in its payload. -/
def protRootGateway : Gateway :=
  shippedGateway
    (fun ct uid =>
      if ct = "page" && uid = "R" then
        .ok (.obj [("entry",
          .obj [("title", .str "root"),
                ("child", .obj [("_content_type_uid", .str "page"),
                                ("uid", .str "K")])])])
      else .error "404 Not Found")
    (fun _ _ =>
      { success := true, already_deleted := false, protectedFlag := false,
        error := none })

/-- Witness for `c7_protected_node_inherits`: walking the unmarkered
root `page/R` writes the inherited-protection verdict for its nested
child `page/K`. -/
theorem c7_protected_node_inherits_witness :
    mapLookup (traverse_hierarchy_root_first protRootGateway 1 "page" "R"
        (.obj [("title", .str "root"),
               ("child", .obj [("_content_type_uid", .str "page"),
                               ("uid", .str "K")])])
        "R" none (initState false)).1.reference_analysis "page/K"
      = some (inheritedVerdict "page/R") := by
  have h := c7_protected_node_inherits protRootGateway 0 "page" "R"
    (.obj [("title", .str "root"),
           ("child", .obj [("_content_type_uid", .str "page"),
                           ("uid", .str "K")])])
    "R" none (initState false) (by rfl) (by rfl)
  have h2 := h.2.2 (.str "page", .str "K")
    (by
      show (Json.str "page", Json.str "K") ∈ [(Json.str "page", Json.str "K")]
      exact List.mem_singleton.mpr rfl)
    (by rfl)
  exact h2.1

/-! ## C3: the shipped gateway has no referrer query -/

/-- The fail-closed verdict recorded when `get_entry_references` raises
on the shipped gateway. -/
def analysisErrorVerdict : Verdict :=
  { to_be_deleted := false, references := [],
    reason := "Analysis error: " ++ missingRefsMsg, has_migration_tag := false }

/-- Every verdict recorded in the map is protected. -/
def allProtected (m : List (String × Verdict)) : Prop :=
  ∀ k v, mapLookup m k = some v → v.to_be_deleted = false

theorem allProtected_mapSet {m : List (String × Verdict)} {k : String} {v : Verdict}
    (h : allProtected m) (hv : v.to_be_deleted = false) :
    allProtected (mapSet m k v) := by
  intro k2 v2 hl
  by_cases he : k2 = k
  · subst he
    rw [mapLookup_mapSet_self] at hl
    cases hl
    exact hv
  · rw [mapLookup_mapSet_ne _ _ _ _ he] at hl
    exact h k2 v2 hl

/-- `fetch_entry_details` only appends the fetch event to the trace. -/
theorem fetch_entry_details_state (gw : Gateway) (st : DelState) (ct uid : String) :
    (fetch_entry_details gw st ct uid).1
      = { st with trace := st.trace ++ [Event.getEntryCall ct uid] } := by
  unfold fetch_entry_details
  cases hge : gw.getEntry ct uid with
  | error e => rfl
  | ok resp =>
    simp only
    cases hresp : resp.get "entry" with
    | none => rfl
    | some entry => by_cases ht : pyTruthy entry <;> simp [ht]

theorem analyze_shipped_protected (ge : String → String → Except String Json)
    (de : String → String → DeleteResult) (ct uid parent : String) (st : DelState)
    (h : allProtected st.reference_analysis) :
    allProtected (analyze_entry_references (shippedGateway ge de) ct uid parent
      st).1.reference_analysis ∧
    (analyze_entry_references (shippedGateway ge de) ct uid parent st).2.to_be_deleted
      = false := by
  unfold analyze_entry_references
  cases hl : mapLookup st.reference_analysis (entryKey ct uid) with
  | some v =>
    simp only [hl]
    exact ⟨h, h _ _ hl⟩
  | none =>
    simp only [hl, fetch_entry_details]
    cases hge : (shippedGateway ge de).getEntry ct uid with
    | error e =>
      simp only
      exact ⟨allProtected_mapSet h rfl, by trivial⟩
    | ok resp =>
      simp only
      cases hresp : resp.get "entry" with
      | none => exact ⟨allProtected_mapSet h rfl, by trivial⟩
      | some entry =>
        by_cases ht : pyTruthy entry
        · simp only [ht, if_true]
          by_cases htag : check_migration_tag entry
          · simp only [htag, if_true]
            exact ⟨allProtected_mapSet h rfl, by trivial⟩
          · simp only [htag, Bool.false_eq_true, if_false]
            exact ⟨allProtected_mapSet h rfl, by trivial⟩
        · simp only [ht, Bool.false_eq_true, if_false]
          exact ⟨allProtected_mapSet h rfl, by trivial⟩

theorem inheritLoop_allProtected (pk : String) :
    ∀ (pairs : List (Json × Json)) (st : DelState),
      allProtected st.reference_analysis →
      allProtected (inheritLoop pk pairs st).reference_analysis
  | [], _, h => h
  | p :: rest, st, h => by
    obtain ⟨a, b⟩ := p
    simp only [inheritLoop]
    split
    case isTrue hs => exact inheritLoop_allProtected pk rest st h
    case isFalse hs =>
      exact inheritLoop_allProtected pk rest
        { st with
            reference_analysis :=
              mapSet st.reference_analysis (pyStr a ++ "/" ++ pyStr b)
                (inheritedVerdict pk),
            referenced_entries :=
              addKey st.referenced_entries (pyStr a ++ "/" ++ pyStr b) }
        (allProtected_mapSet h rfl)

theorem traverse_shipped_allProtected (ge : String → String → Except String Json)
    (de : String → String → DeleteResult) :
    ∀ (fuel : Nat) (ct uid : String) (ed : Json) (root : String)
      (imm : Option String) (st : DelState),
      allProtected st.reference_analysis →
      allProtected (traverse_hierarchy_root_first (shippedGateway ge de) fuel ct uid
        ed root imm st).1.reference_analysis
  | 0, _, _, _, _, _, _, h => h
  | fuel + 1, ct, uid, ed, root, imm, st, h => by
    simp only [traverse_hierarchy_root_first]
    split
    case isTrue hs => exact h
    case isFalse hs =>
      rcases hA : analyze_entry_references (shippedGateway ge de) ct uid
          (parentForFiltering imm root) st with ⟨st1, v⟩
      have hsp := analyze_shipped_protected ge de ct uid
        (parentForFiltering imm root) st h
      rw [hA] at hsp
      have hv : v.to_be_deleted = false := hsp.2
      simp only [hA, hv, Bool.false_eq_true, if_false]
      exact inheritLoop_allProtected _ _ _ hsp.1

theorem hierarchy_shipped_allProtected (ge : String → String → Except String Json)
    (de : String → String → DeleteResult) (fuel : Nat) (ct uid : String)
    (st : DelState) (h : allProtected st.reference_analysis) :
    allProtected (analyze_entry_hierarchy_for_references (shippedGateway ge de) fuel
      ct uid st).1.reference_analysis := by
  unfold analyze_entry_hierarchy_for_references
  rcases hf : fetch_entry_details (shippedGateway ge de) st ct uid with ⟨stf, rootOpt⟩
  have hstf : stf = { st with trace := st.trace ++ [Event.getEntryCall ct uid] } := by
    have h2 := fetch_entry_details_state (shippedGateway ge de) st ct uid
    rw [hf] at h2
    exact h2
  have hstfP : allProtected stf.reference_analysis := by
    rw [hstf]; simpa using h
  cases rootOpt with
  | none => exact hstfP
  | some root_data =>
    simp only
    rcases hT : traverse_hierarchy_root_first (shippedGateway ge de) fuel ct uid
        root_data uid none stf with ⟨st2, raised⟩
    have hTP := traverse_shipped_allProtected ge de fuel ct uid root_data uid none
      stf hstfP
    rw [hT] at hTP
    cases raised <;> simpa using hTP

/-- C3: `ContentstackAPI` defines no `get_entry_references` method, so
for every entry that is fetched successfully and carries the
`migrated-from-cms` tag, the referrer query in
`analyze_entry_references` raises, the exception is caught, and the
verdict is protected with a reason beginning `Analysis error:`;
consequently no verdict produced by a reference-analysis run has
`to_be_deleted=true`, and every entry analyzed by
`_analyze_rollback_references` is likewise marked protected by its
fail-closed handler. -/
theorem c3_shipped_gateway_always_protects :
    (∀ (ge : String → String → Except String Json)
       (de : String → String → DeleteResult) (ct uid parent : String)
       (st : DelState) (resp entry : Json),
      mapLookup st.reference_analysis (entryKey ct uid) = none →
      ge ct uid = .ok resp →
      resp.get "entry" = some entry →
      pyTruthy entry = true →
      check_migration_tag entry = true →
      (analyze_entry_references (shippedGateway ge de) ct uid parent st).2
          = analysisErrorVerdict ∧
      ∃ rest, (analyze_entry_references (shippedGateway ge de) ct uid parent
          st).2.reason = "Analysis error:" ++ rest) ∧
    (∀ (ge : String → String → Except String Json)
       (de : String → String → DeleteResult) (fuel : Nat) (ct uid : String)
       (dry : Bool),
      allProtected (analyze_entry_hierarchy_for_references (shippedGateway ge de)
        fuel ct uid (initState dry)).1.reference_analysis) ∧
    (∀ (ge : String → String → Except String Json)
       (de : String → String → DeleteResult) (created : List CreatedEntry)
       (k : String) (v : RollVerdict),
      mapLookup (analyze_rollback_references (shippedGateway ge de) created) k
          = some v →
      v.to_be_deleted = false ∧
      ∃ rest, v.reason = "Reference check failed:" ++ rest) := by
  refine ⟨?_, ?_, ?_⟩
  · intro ge de ct uid parent st resp entry hfresh hget hentry htruthy htag
    have hv : (analyze_entry_references (shippedGateway ge de) ct uid parent st).2
        = analysisErrorVerdict := by
      simp only [analyze_entry_references, fetch_entry_details, shippedGateway,
        hfresh, hget, hentry, htruthy, htag, analysisErrorVerdict]
      simp [htag]
    refine ⟨hv, ⟨" " ++ missingRefsMsg, ?_⟩⟩
    rw [hv]
    decide
  · intro ge de fuel ct uid dry
    apply hierarchy_shipped_allProtected
    intro k v hl
    simp [initState, mapLookup] at hl
  · intro ge de created k v
    have aux : ∀ (l : List CreatedEntry) (uids : List String)
        (acc : List (String × RollVerdict)),
        (∀ k2 v2, mapLookup acc k2 = some v2 →
          v2.to_be_deleted = false ∧
          ∃ rest, v2.reason = "Reference check failed:" ++ rest) →
        ∀ k2 v2,
          mapLookup (l.foldl (rollbackAnalyzeStep (shippedGateway ge de) uids) acc)
            k2 = some v2 →
          v2.to_be_deleted = false ∧
          ∃ rest, v2.reason = "Reference check failed:" ++ rest := by
      intro l
      induction l with
      | nil => intro uids acc hacc k2 v2 hl; exact hacc k2 v2 hl
      | cons e rest ih =>
        intro uids acc hacc k2 v2 hl
        refine ih uids _ ?_ k2 v2 hl
        intro k3 v3 hl3
        unfold rollbackAnalyzeStep at hl3
        simp only [shippedGateway] at hl3
        by_cases he : k3 = entryKey e.content_type e.uid
        · subst he
          rw [mapLookup_mapSet_self] at hl3
          cases hl3
          exact ⟨rfl,
            ⟨" " ++ missingRefsMsg ++ " - assuming protected for safety", by decide⟩⟩
        · rw [mapLookup_mapSet_ne _ _ _ _ he] at hl3
          exact hacc k3 v3 hl3
    intro hl
    exact aux created _ [] (by intro k2 v2 h; simp [mapLookup] at h) k v hl

/-- Witness for `c3_shipped_gateway_always_protects`: a markered entry
on the shipped gateway gets the `Analysis error:` verdict. -/
theorem c3_shipped_gateway_always_protects_witness :
    (analyze_entry_references
      (shippedGateway
        (fun _ _ => .ok (.obj [("entry", chainPayload none)]))
        (fun _ _ => { success := true, already_deleted := false,
                      protectedFlag := false, error := none }))
      "page" "C" "B" (initState false)).2 = analysisErrorVerdict := by
  have h := c3_shipped_gateway_always_protects.1
    (fun _ _ => .ok (.obj [("entry", chainPayload none)]))
    (fun _ _ => { success := true, already_deleted := false,
                  protectedFlag := false, error := none })
    "page" "C" "B" (initState false) (.obj [("entry", chainPayload none)])
    (chainPayload none) (by rfl) (by rfl) (by rfl) (by rfl) (by rfl)
  exact h.1

/-! ## The step relation of the deletion executor

`Steps st st2` captures what one (sub)run of `recursively_delete_entry`
can do to the run state: the processed set only grows, the analysis map
and flag are untouched, the trace is extended, no delete call is issued
for an already-processed key, and any new delete call is a single one
for a freshly processed key that — when the analysis had completed —
carries a recorded `to_be_deleted=true` verdict. -/

/-- Number of delete calls for `(ct, uid)` in the trace so far. -/
def delCount (st : DelState) (ct uid : String) : Nat :=
  st.trace.count (Event.deleteCall ct uid)

structure Steps (st st2 : DelState) : Prop where
  procMono : ∀ k, keyMem st.processed_entries k = true →
    keyMem st2.processed_entries k = true
  raEq : st2.reference_analysis = st.reference_analysis
  compEq : st2.reference_analysis_completed = st.reference_analysis_completed
  dryEq : st2.dry_run = st.dry_run
  traceExt : ∃ evs, st2.trace = st.trace ++ evs
  processedCount : ∀ ct uid, keyMem st.processed_entries (entryKey ct uid) = true →
    delCount st2 ct uid = delCount st ct uid
  countStep : ∀ ct uid, delCount st2 ct uid = delCount st ct uid ∨
    (delCount st2 ct uid = delCount st ct uid + 1 ∧
     keyMem st2.processed_entries (entryKey ct uid) = true ∧
     keyMem st.processed_entries (entryKey ct uid) = false ∧
     (st.reference_analysis_completed = true →
       ∃ v, mapLookup st.reference_analysis (entryKey ct uid) = some v ∧
         v.to_be_deleted = true))

theorem Steps.rfl (st : DelState) : Steps st st where
  procMono := fun _ h => h
  raEq := Eq.refl _
  compEq := Eq.refl _
  dryEq := Eq.refl _
  traceExt := ⟨[], (List.append_nil _).symm⟩
  processedCount := fun _ _ _ => Eq.refl _
  countStep := fun _ _ => Or.inl (Eq.refl _)

theorem Steps.trans {a b c : DelState} (h1 : Steps a b) (h2 : Steps b c) :
    Steps a c where
  procMono := fun k hk => h2.procMono k (h1.procMono k hk)
  raEq := h2.raEq.trans h1.raEq
  compEq := h2.compEq.trans h1.compEq
  dryEq := h2.dryEq.trans h1.dryEq
  traceExt := by
    obtain ⟨e1, he1⟩ := h1.traceExt
    obtain ⟨e2, he2⟩ := h2.traceExt
    exact ⟨e1 ++ e2, by rw [he2, he1, List.append_assoc]⟩
  processedCount := fun ct uid hm =>
    (h2.processedCount ct uid (h1.procMono _ hm)).trans (h1.processedCount ct uid hm)
  countStep := fun ct uid => by
    rcases h2.countStep ct uid with he2 | ⟨hc2, hm2, hn2, hv2⟩
    · rcases h1.countStep ct uid with he1 | ⟨hc1, hm1, hn1, hv1⟩
      · exact Or.inl (he2.trans he1)
      · exact Or.inr ⟨he2.trans hc1, h2.procMono _ hm1, hn1, hv1⟩
    · rcases h1.countStep ct uid with he1 | ⟨hc1, hm1, hn1, hv1⟩
      · refine Or.inr ⟨by rw [hc2, he1], hm2, ?_, ?_⟩
        · by_contra hmem
          have : keyMem a.processed_entries (entryKey ct uid) = true := by
            revert hmem
            cases keyMem a.processed_entries (entryKey ct uid) <;> simp
          exact absurd (h1.procMono _ this) (by rw [hn2]; simp)
        · intro hca
          have hcb : b.reference_analysis_completed = true := h1.compEq.trans hca
          obtain ⟨v, hv, hvt⟩ := hv2 hcb
          exact ⟨v, by rw [← h1.raEq]; exact hv, hvt⟩
      · exact absurd hm1 (by rw [hn2]; simp)

theorem Steps.addProcessed (st : DelState) (k : String) :
    Steps st { st with processed_entries := addKey st.processed_entries k } where
  procMono := fun _ hk => keyMem_addKey_mono _ _ _ hk
  raEq := Eq.refl _
  compEq := Eq.refl _
  dryEq := Eq.refl _
  traceExt := ⟨[], (List.append_nil _).symm⟩
  processedCount := fun _ _ _ => Eq.refl _
  countStep := fun _ _ => Or.inl (Eq.refl _)

theorem Steps.addGetTrace (st : DelState) (ct uid : String) :
    Steps st { st with trace := st.trace ++ [Event.getEntryCall ct uid] } where
  procMono := fun _ h => h
  raEq := Eq.refl _
  compEq := Eq.refl _
  dryEq := Eq.refl _
  traceExt := ⟨[Event.getEntryCall ct uid], Eq.refl _⟩
  processedCount := fun c u _ => by simp [delCount, List.count_append]
  countStep := fun c u => Or.inl (by simp [delCount, List.count_append])

theorem Steps.setFailed (st : DelState) (k m : String) :
    Steps st { st with failed_deletions := mapSet st.failed_deletions k m } where
  procMono := fun _ h => h
  raEq := Eq.refl _
  compEq := Eq.refl _
  dryEq := Eq.refl _
  traceExt := ⟨[], (List.append_nil _).symm⟩
  processedCount := fun _ _ _ => Eq.refl _
  countStep := fun _ _ => Or.inl (Eq.refl _)

theorem Steps.addWould (st : DelState) (k : String) :
    Steps st { st with
      would_delete_entries := addKey st.would_delete_entries k } where
  procMono := fun _ h => h
  raEq := Eq.refl _
  compEq := Eq.refl _
  dryEq := Eq.refl _
  traceExt := ⟨[], (List.append_nil _).symm⟩
  processedCount := fun _ _ _ => Eq.refl _
  countStep := fun _ _ => Or.inl (Eq.refl _)

theorem Steps.addDeleted (st : DelState) (k : String) :
    Steps st { st with deleted_entries := addKey st.deleted_entries k } where
  procMono := fun _ h => h
  raEq := Eq.refl _
  compEq := Eq.refl _
  dryEq := Eq.refl _
  traceExt := ⟨[], (List.append_nil _).symm⟩
  processedCount := fun _ _ _ => Eq.refl _
  countStep := fun _ _ => Or.inl (Eq.refl _)

theorem Steps.pushDelete (st st3 : DelState) (ct uid : String)
    (hS : Steps st st3)
    (hfresh : keyMem st.processed_entries (entryKey ct uid) = false)
    (hmem3 : keyMem st3.processed_entries (entryKey ct uid) = true)
    (hcnt : delCount st3 ct uid = delCount st ct uid)
    (hvc : st.reference_analysis_completed = true →
      ∃ v, mapLookup st.reference_analysis (entryKey ct uid) = some v ∧
        v.to_be_deleted = true) :
    Steps st { st3 with trace := st3.trace ++ [Event.deleteCall ct uid] } where
  procMono := fun k hk => hS.procMono k hk
  raEq := hS.raEq
  compEq := hS.compEq
  dryEq := hS.dryEq
  traceExt := by
    obtain ⟨evs, he⟩ := hS.traceExt
    exact ⟨evs ++ [Event.deleteCall ct uid], by simp [he]⟩
  processedCount := by
    intro c u hm
    by_cases hcu : c = ct ∧ u = uid
    · obtain ⟨hc, hu⟩ := hcu
      subst hc; subst hu
      rw [hm] at hfresh
      cases hfresh
    · have hne : ¬ (Event.deleteCall c u = Event.deleteCall ct uid) := by
        intro he
        injection he with h1 h2
        exact hcu ⟨h1, h2⟩
      have : delCount { st3 with trace := st3.trace ++ [Event.deleteCall ct uid] } c u
          = delCount st3 c u := by
        simp [delCount, List.count_append, List.count_cons, List.count_nil, hne]
      rw [this]
      exact hS.processedCount c u hm
  countStep := by
    intro c u
    by_cases hcu : c = ct ∧ u = uid
    · obtain ⟨hc, hu⟩ := hcu
      subst hc; subst hu
      refine Or.inr ⟨?_, hmem3, hfresh, hvc⟩
      simp [delCount, List.count_append, List.count_cons, List.count_nil, hcnt]
      exact hcnt
    · have hne : ¬ (Event.deleteCall c u = Event.deleteCall ct uid) := by
        intro he
        injection he with h1 h2
        exact hcu ⟨h1, h2⟩
      have heq : delCount { st3 with trace := st3.trace ++ [Event.deleteCall ct uid] } c u
          = delCount st3 c u := by
        simp [delCount, List.count_append, List.count_cons, List.count_nil, hne]
      rw [heq]
      exact hS.countStep c u

mutual
theorem pn_steps (delFn : String → String → DelState → DelState × RStep)
    (hd : ∀ c u s, Steps s (delFn c u s).1) :
    ∀ (j : Json) (st : DelState), Steps st (process_nested_entries delFn j st).1
  | .null, st => Steps.rfl st
  | .bool _, st => Steps.rfl st
  | .num _, st => Steps.rfl st
  | .str _, st => Steps.rfl st
  | .arr items, st => pnl_steps delFn hd items st
  | .obj fields, st => by
    simp only [process_nested_entries]
    cases h1 : lookupField fields "_content_type_uid" with
    | none =>
      cases h2 : lookupField fields "uid" with
      | none => exact pnf_steps delFn hd fields st
      | some uidJ => exact pnf_steps delFn hd fields st
    | some ctJ =>
      cases h2 : lookupField fields "uid" with
      | none => exact pnf_steps delFn hd fields st
      | some uidJ =>
        show Steps st
          (match delFn (pyStr ctJ) (pyStr uidJ) st with
            | (s2, RStep.ret _) => (s2, (none : Option String))
            | (s2, RStep.exc m) => (s2, some m)).1
        rcases hdel : delFn (pyStr ctJ) (pyStr uidJ) st with ⟨st2, rs⟩
        have hs : Steps st st2 := by
          have h := hd (pyStr ctJ) (pyStr uidJ) st
          rw [hdel] at h
          exact h
        cases rs with
        | ret r => exact hs
        | exc m => exact hs

theorem pnl_steps (delFn : String → String → DelState → DelState × RStep)
    (hd : ∀ c u s, Steps s (delFn c u s).1) :
    ∀ (items : List Json) (st : DelState),
      Steps st (processNestedList delFn items st).1
  | [], st => Steps.rfl st
  | x :: xs, st => by
    simp only [processNestedList]
    rcases hx : process_nested_entries delFn x st with ⟨st2, mOpt⟩
    have hs : Steps st st2 := by
      have h := pn_steps delFn hd x st
      rw [hx] at h
      exact h
    cases mOpt with
    | none => exact hs.trans (pnl_steps delFn hd xs st2)
    | some m => exact hs

theorem pnf_steps (delFn : String → String → DelState → DelState × RStep)
    (hd : ∀ c u s, Steps s (delFn c u s).1) :
    ∀ (fields : List (String × Json)) (st : DelState),
      Steps st (processNestedFields delFn fields st).1
  | [], st => Steps.rfl st
  | f :: rest, st => by
    obtain ⟨k, v⟩ := f
    simp only [processNestedFields]
    rcases hx : process_nested_entries delFn v st with ⟨st2, mOpt⟩
    have hs : Steps st st2 := by
      have h := pn_steps delFn hd v st
      rw [hx] at h
      exact h
    cases mOpt with
    | none => exact hs.trans (pnf_steps delFn hd rest st2)
    | some m => exact hs
end

theorem safetyGate_none_incomplete (st : DelState) (key : String)
    (h : ¬ st.reference_analysis_completed = true) : safetyGate st key = none := by
  unfold safetyGate
  rw [if_neg h]

theorem safetyGate_none_clear (st : DelState) (key : String) (a : Verdict)
    (hc : st.reference_analysis_completed = true)
    (hl : mapLookup st.reference_analysis key = some a)
    (ht : a.to_be_deleted = true) : safetyGate st key = none := by
  unfold safetyGate
  rw [if_pos hc, hl]
  simp [ht]

theorem safetyGate_some_notAnalyzed (st : DelState) (key : String)
    (hc : st.reference_analysis_completed = true)
    (hl : mapLookup st.reference_analysis key = none) :
    safetyGate st key = some (.skipped (some "Not analyzed")) := by
  unfold safetyGate
  rw [if_pos hc, hl]

theorem safetyGate_some_protected (st : DelState) (key : String) (a : Verdict)
    (hc : st.reference_analysis_completed = true)
    (hl : mapLookup st.reference_analysis key = some a)
    (ht : a.to_be_deleted = false) :
    safetyGate st key = some (.skipped (some a.reason)) := by
  unfold safetyGate
  rw [if_pos hc, hl]
  simp [ht]

/-- The `try` block satisfies the step relation, for any recursive
deletion `delFn` that does. `st0` is the state at the enclosing call's
entry: the node's key is fresh there, already processed in `st1`. -/
theorem rdeCore_steps (gw : Gateway)
    (delFn : String → String → DelState → DelState × RStep)
    (hd : ∀ c u s, Steps s (delFn c u s).1)
    (ct uid : String) (st0 st1 : DelState) (hS1 : Steps st0 st1)
    (hfresh : keyMem st0.processed_entries (entryKey ct uid) = false)
    (hmem1 : keyMem st1.processed_entries (entryKey ct uid) = true)
    (hcnt1 : delCount st1 ct uid = delCount st0 ct uid)
    (hvc : st0.reference_analysis_completed = true →
      ∃ v, mapLookup st0.reference_analysis (entryKey ct uid) = some v ∧
        v.to_be_deleted = true) :
    Steps st0 (rdeCore gw delFn ct uid st1).1 := by
  unfold rdeCore
  cases hge : gw.getEntry ct uid with
  | error e =>
    exact (hS1.trans (Steps.addGetTrace st1 ct uid)).trans
      (Steps.setFailed _ (entryKey ct uid) e)
  | ok entry_data =>
    simp only
    rcases hpn : process_nested_entries delFn
        ((entry_data.get "entry").getD (.obj []))
        { st1 with trace := st1.trace ++ [Event.getEntryCall ct uid] }
      with ⟨st3, excOpt⟩
    have hS2 : Steps st0
        { st1 with trace := st1.trace ++ [Event.getEntryCall ct uid] } :=
      hS1.trans (Steps.addGetTrace st1 ct uid)
    have hmem2 : keyMem ({ st1 with
        trace := st1.trace ++ [Event.getEntryCall ct uid] }).processed_entries
        (entryKey ct uid) = true := hmem1
    have hS23 : Steps { st1 with trace := st1.trace ++ [Event.getEntryCall ct uid] }
        st3 := by
      have h := pn_steps delFn hd ((entry_data.get "entry").getD (.obj []))
        { st1 with trace := st1.trace ++ [Event.getEntryCall ct uid] }
      rw [hpn] at h
      exact h
    have hS3 : Steps st0 st3 := hS2.trans hS23
    have hmem3 : keyMem st3.processed_entries (entryKey ct uid) = true :=
      hS23.procMono _ hmem2
    have hcnt3 : delCount st3 ct uid = delCount st0 ct uid := by
      have h1 : delCount st3 ct uid
          = delCount { st1 with
              trace := st1.trace ++ [Event.getEntryCall ct uid] } ct uid :=
        hS23.processedCount ct uid hmem2
      have h2 : delCount { st1 with
          trace := st1.trace ++ [Event.getEntryCall ct uid] } ct uid
          = delCount st1 ct uid := by
        simp [delCount, List.count_append, List.count_cons, List.count_nil]
      rw [h1, h2, hcnt1]
    cases excOpt with
    | some m => exact hS3.trans (Steps.setFailed st3 (entryKey ct uid) m)
    | none =>
      by_cases hdry : st3.dry_run = true
      · rw [if_pos hdry]
        exact hS3.trans (Steps.addWould st3 (entryKey ct uid))
      · rw [if_neg hdry]
        have hPush : Steps st0
            { st3 with trace := st3.trace ++ [Event.deleteCall ct uid] } :=
          Steps.pushDelete st0 st3 ct uid hS3 hfresh hmem3 hcnt3 hvc
        by_cases hsucc : (gw.deleteEntry ct uid).success = true
        · rw [if_pos hsucc]
          exact hPush.trans (Steps.addDeleted _ (entryKey ct uid))
        · rw [if_neg hsucc]
          by_cases hprot : (gw.deleteEntry ct uid).protectedFlag = true
          · rw [if_pos hprot]
            exact hPush.trans (Steps.setFailed _ (entryKey ct uid) _)
          · rw [if_neg hprot]
            exact hPush.trans (Steps.setFailed _ (entryKey ct uid) _)

/-- Every (sub)run of the deletion executor satisfies the step
relation. -/
theorem rde_steps (gw : Gateway) :
    ∀ (fuel : Nat) (ct uid : String) (st : DelState),
      Steps st (recursively_delete_entry gw fuel ct uid st).1
  | 0, _, _, st => Steps.rfl st
  | fuel + 1, ct, uid, st => by
    simp only [recursively_delete_entry]
    split
    case isTrue h => exact Steps.rfl st
    case isFalse hfresh0 =>
      have hfresh : keyMem st.processed_entries (entryKey ct uid) = false := by
        revert hfresh0
        cases keyMem st.processed_entries (entryKey ct uid) <;> simp
      have hS1 : Steps st
          { st with
            processed_entries := addKey st.processed_entries (entryKey ct uid) } :=
        Steps.addProcessed st (entryKey ct uid)
      have hmem1 : keyMem (addKey st.processed_entries (entryKey ct uid))
          (entryKey ct uid) = true := keyMem_addKey_self _ _
      by_cases hcomp : st.reference_analysis_completed = true
      · cases hlk : mapLookup st.reference_analysis (entryKey ct uid) with
        | none =>
          rw [safetyGate_some_notAnalyzed
            { st with
              processed_entries := addKey st.processed_entries (entryKey ct uid) }
            _ hcomp hlk]
          exact hS1
        | some a =>
          by_cases htbd : a.to_be_deleted = true
          · rw [safetyGate_none_clear
              { st with
                processed_entries := addKey st.processed_entries (entryKey ct uid) }
              _ a hcomp hlk htbd]
            exact rdeCore_steps gw _ (fun c u s => rde_steps gw fuel c u s)
              ct uid st _ hS1 hfresh hmem1 rfl (fun _ => ⟨a, hlk, htbd⟩)
          · have htbdf : a.to_be_deleted = false := by
              revert htbd
              cases a.to_be_deleted <;> simp
            rw [safetyGate_some_protected
              { st with
                processed_entries := addKey st.processed_entries (entryKey ct uid) }
              _ a hcomp hlk htbdf]
            exact hS1
      · rw [safetyGate_none_incomplete
          { st with
            processed_entries := addKey st.processed_entries (entryKey ct uid) }
          _ hcomp]
        exact rdeCore_steps gw _ (fun c u s => rde_steps gw fuel c u s)
          ct uid st _ hS1 hfresh hmem1 rfl (fun hc => absurd hc hcomp)

/-! ## The analysis/backup phases issue no delete calls -/

/-- Whether an event is a gateway delete call. -/
def isDeleteEvent : Event → Bool
  | .deleteCall _ _ => true
  | _ => false

/-- What the backup and analysis phases can do to the state: extend the
trace with non-delete events and leave the processed set, the dry-run
flag and the analysis-completed flag unchanged. -/
structure APhase (st st2 : DelState) : Prop where
  traceND : ∃ evs, st2.trace = st.trace ++ evs ∧ ∀ e ∈ evs, isDeleteEvent e = false
  procEq : st2.processed_entries = st.processed_entries
  dryEq : st2.dry_run = st.dry_run
  compEq : st2.reference_analysis_completed = st.reference_analysis_completed

theorem APhase.aphaseRfl (st : DelState) : APhase st st where
  traceND := ⟨[], (List.append_nil _).symm, by simp⟩
  procEq := Eq.refl _
  dryEq := Eq.refl _
  compEq := Eq.refl _

theorem APhase.aphaseTrans {a b c : DelState} (h1 : APhase a b) (h2 : APhase b c) :
    APhase a c where
  traceND := by
    obtain ⟨e1, he1, hn1⟩ := h1.traceND
    obtain ⟨e2, he2, hn2⟩ := h2.traceND
    refine ⟨e1 ++ e2, by rw [he2, he1, List.append_assoc], ?_⟩
    intro e he
    rcases List.mem_append.mp he with h | h
    · exact hn1 e h
    · exact hn2 e h
  procEq := h2.procEq.trans h1.procEq
  dryEq := h2.dryEq.trans h1.dryEq
  compEq := h2.compEq.trans h1.compEq

theorem fetch_aphase (gw : Gateway) (st : DelState) (ct uid : String) :
    APhase st (fetch_entry_details gw st ct uid).1 := by
  rw [fetch_entry_details_state]
  exact ⟨⟨[Event.getEntryCall ct uid], by simp, by simp [isDeleteEvent]⟩,
    Eq.refl _, Eq.refl _, Eq.refl _⟩

theorem analyze_aphase (gw : Gateway) (ct uid p : String) (st : DelState) :
    APhase st (analyze_entry_references gw ct uid p st).1 := by
  unfold analyze_entry_references
  cases hl : mapLookup st.reference_analysis (entryKey ct uid) with
  | some v =>
    simp only [hl]
    exact APhase.aphaseRfl st
  | none =>
    simp only [hl, fetch_entry_details]
    cases hge : gw.getEntry ct uid with
    | error e =>
      exact ⟨⟨[Event.getEntryCall ct uid], by simp, by simp [isDeleteEvent]⟩,
        Eq.refl _, Eq.refl _, Eq.refl _⟩
    | ok resp =>
      simp only
      cases hresp : resp.get "entry" with
      | none =>
        exact ⟨⟨[Event.getEntryCall ct uid], by simp, by simp [isDeleteEvent]⟩,
          Eq.refl _, Eq.refl _, Eq.refl _⟩
      | some entry =>
        by_cases ht : pyTruthy entry = true
        · simp only [ht, if_true]
          by_cases htag : check_migration_tag entry = true
          · simp only [htag, if_true]
            cases hrq : gw.getEntryReferences ct uid with
            | error e =>
              exact ⟨⟨[Event.getEntryCall ct uid, Event.refQueryCall ct uid],
                  by simp, by simp [isDeleteEvent]⟩,
                Eq.refl _, Eq.refl _, Eq.refl _⟩
            | ok allRefs =>
              simp only
              split
              · exact ⟨⟨[Event.getEntryCall ct uid, Event.refQueryCall ct uid],
                    by simp, by simp [isDeleteEvent]⟩,
                  Eq.refl _, Eq.refl _, Eq.refl _⟩
              · exact ⟨⟨[Event.getEntryCall ct uid, Event.refQueryCall ct uid],
                    by simp, by simp [isDeleteEvent]⟩,
                  Eq.refl _, Eq.refl _, Eq.refl _⟩
          · have htagf : check_migration_tag entry = false := by
              revert htag
              cases check_migration_tag entry <;> simp
            simp only [htagf, Bool.false_eq_true, if_false]
            exact ⟨⟨[Event.getEntryCall ct uid], by simp, by simp [isDeleteEvent]⟩,
              Eq.refl _, Eq.refl _, Eq.refl _⟩
        · have htf : pyTruthy entry = false := by
            revert ht
            cases pyTruthy entry <;> simp
          simp only [htf, Bool.false_eq_true, if_false]
          exact ⟨⟨[Event.getEntryCall ct uid], by simp, by simp [isDeleteEvent]⟩,
            Eq.refl _, Eq.refl _, Eq.refl _⟩

theorem inheritLoop_aphase (pk : String) (pairs : List (Json × Json))
    (st : DelState) : APhase st (inheritLoop pk pairs st) := by
  obtain ⟨ht, hd, _, _, hp, _, _, hc, _⟩ := inheritLoop_frame pk pairs st
  exact ⟨⟨[], by rw [ht, List.append_nil], by simp⟩, hp, hd, hc⟩

theorem childLoop_aphase (gw : Gateway)
    (walk : String → String → Json → Option String → DelState → DelState × Bool)
    (entry_uid : String)
    (hwalk : ∀ c u d p s, APhase s (walk c u d p s).1) :
    ∀ (pairs : List (Json × Json)) (st : DelState),
      APhase st (traverseChildLoop gw walk entry_uid pairs st)
  | [], st => APhase.aphaseRfl st
  | p :: rest, st => by
    obtain ⟨a, b⟩ := p
    simp only [traverseChildLoop]
    rcases hf : fetch_entry_details gw st (pyStr a) (pyStr b) with ⟨stf, dOpt⟩
    have h1 : APhase st stf := by
      have h := fetch_aphase gw st (pyStr a) (pyStr b)
      rw [hf] at h
      exact h
    cases dOpt with
    | none => exact h1.aphaseTrans (childLoop_aphase gw walk entry_uid hwalk rest stf)
    | some d =>
      dsimp only
      rcases hw : walk (pyStr a) (pyStr b) d (some entry_uid) stf with ⟨stw, raised⟩
      have h2 : APhase stf stw := by
        have h := hwalk (pyStr a) (pyStr b) d (some entry_uid) stf
        rw [hw] at h
        exact h
      exact (h1.aphaseTrans h2).aphaseTrans (childLoop_aphase gw walk entry_uid hwalk rest stw)

theorem traverse_aphase (gw : Gateway) :
    ∀ (fuel : Nat) (ct uid : String) (ed : Json) (root : String)
      (imm : Option String) (st : DelState),
      APhase st (traverse_hierarchy_root_first gw fuel ct uid ed root imm st).1
  | 0, _, _, _, _, _, st => APhase.aphaseRfl st
  | fuel + 1, ct, uid, ed, root, imm, st => by
    simp only [traverse_hierarchy_root_first]
    split
    case isTrue h => exact APhase.aphaseRfl st
    case isFalse h =>
      rcases hA : analyze_entry_references gw ct uid (parentForFiltering imm root) st
        with ⟨st1, v⟩
      have h1 : APhase st st1 := by
        have h2 := analyze_aphase gw ct uid (parentForFiltering imm root) st
        rw [hA] at h2
        exact h2
      by_cases htbd : v.to_be_deleted = true
      · rw [if_pos htbd]
        exact h1.aphaseTrans (childLoop_aphase gw _ uid
          (fun c u d p s => traverse_aphase gw fuel c u d root p s)
          (find_nested_entries ed []) st1)
      · rw [if_neg htbd]
        exact h1.aphaseTrans (inheritLoop_aphase (entryKey ct uid)
          (find_nested_entries ed []) st1)

theorem backup_aphase (gw : Gateway) (cleanup : Json → Except String Json)
    (ct uid : String) (st : DelState) :
    APhase st (backup_entry_recursively gw cleanup ct uid st).1 := by
  unfold backup_entry_recursively
  cases hge : gw.getEntry ct uid with
  | error e =>
    exact ⟨⟨[Event.getEntryCall ct uid], by simp, by simp [isDeleteEvent]⟩,
      Eq.refl _, Eq.refl _, Eq.refl _⟩
  | ok entry_data =>
    simp only
    cases hcl : cleanup ((entry_data.get "entry").getD (.obj [])) with
    | error e =>
      exact ⟨⟨[Event.getEntryCall ct uid], by simp, by simp [isDeleteEvent]⟩,
        Eq.refl _, Eq.refl _, Eq.refl _⟩
    | ok cleaned =>
      exact ⟨⟨[Event.getEntryCall ct uid], by simp, by simp [isDeleteEvent]⟩,
        Eq.refl _, Eq.refl _, Eq.refl _⟩

theorem save_backup_aphase (st : DelState) (root_entry_uid ct : String) :
    APhase st (save_backup_to_file st root_entry_uid ct) := by
  unfold save_backup_to_file
  cases hl : mapLookup st.bk.backed_up_entries (entryKey ct root_entry_uid) with
  | some b =>
    exact ⟨⟨[], by simp, by simp⟩, Eq.refl _, Eq.refl _, Eq.refl _⟩
  | none => exact APhase.aphaseRfl st

/-- `analyze_entry_hierarchy_for_references` is an analysis-phase step
except for the completion flag: a `true` result sets the flag, a `false`
result leaves it unset when it was unset. -/
theorem hierarchy_structure (gw : Gateway) (fuel : Nat) (ct uid : String)
    (st : DelState) :
    (∃ evs, (analyze_entry_hierarchy_for_references gw fuel ct uid st).1.trace
        = st.trace ++ evs ∧ ∀ e ∈ evs, isDeleteEvent e = false) ∧
    (analyze_entry_hierarchy_for_references gw fuel ct uid st).1.processed_entries
      = st.processed_entries ∧
    (analyze_entry_hierarchy_for_references gw fuel ct uid st).1.dry_run
      = st.dry_run ∧
    ((analyze_entry_hierarchy_for_references gw fuel ct uid st).2 = true →
      (analyze_entry_hierarchy_for_references gw fuel ct uid
        st).1.reference_analysis_completed = true) ∧
    ((analyze_entry_hierarchy_for_references gw fuel ct uid st).2 = false →
      st.reference_analysis_completed = false →
      (analyze_entry_hierarchy_for_references gw fuel ct uid
        st).1.reference_analysis_completed = false) := by
  unfold analyze_entry_hierarchy_for_references
  rcases hf : fetch_entry_details gw st ct uid with ⟨stf, rootOpt⟩
  have h1 : APhase st stf := by
    have h := fetch_aphase gw st ct uid
    rw [hf] at h
    exact h
  cases rootOpt with
  | none =>
    obtain ⟨evs, he, hn⟩ := h1.traceND
    exact ⟨⟨evs, he, hn⟩, h1.procEq, h1.dryEq, by simp, fun _ h0 => h1.compEq.trans h0⟩
  | some root_data =>
    simp only
    rcases hT : traverse_hierarchy_root_first gw fuel ct uid root_data uid none stf
      with ⟨st2, raised⟩
    have h2 : APhase stf st2 := by
      have h := traverse_aphase gw fuel ct uid root_data uid none stf
      rw [hT] at h
      exact h
    have h12 := h1.aphaseTrans h2
    obtain ⟨evs, he, hn⟩ := h12.traceND
    cases raised with
    | true =>
      simp only
      exact ⟨⟨evs, he, hn⟩, h12.procEq, h12.dryEq, by simp, fun _ _ => Eq.refl _⟩
    | false =>
      simp only
      exact ⟨⟨evs, he, hn⟩, h12.procEq, h12.dryEq, fun _ => Eq.refl _, by simp⟩

/-- Structure of a full `delete_entry_recursively` run starting with an
unset analysis flag: the backup/analysis phases produce a state `stA`
with delete-free trace extension, and the run either aborts fail-closed
with the flag still unset, or proceeds into the deletion executor from
`stA` with the flag set. -/
theorem der_structure (gw : Gateway) (cleanup : Json → Except String Json)
    (fuel : Nat) (entry_uid : String) (ctOpt : Option String) (st0 : DelState)
    (h0 : st0.reference_analysis_completed = false) :
    ∃ stA : DelState,
      (∃ evs, stA.trace = st0.trace ++ evs ∧ ∀ e ∈ evs, isDeleteEvent e = false) ∧
      stA.processed_entries = st0.processed_entries ∧
      stA.dry_run = st0.dry_run ∧
      (((delete_entry_recursively gw cleanup fuel entry_uid ctOpt st0).1 = stA ∧
        (delete_entry_recursively gw cleanup fuel entry_uid ctOpt st0).2.success
          = false ∧
        (delete_entry_recursively gw cleanup fuel entry_uid ctOpt st0).2.error
          = some "Reference analysis failed" ∧
        stA.reference_analysis_completed = false) ∨
       (stA.reference_analysis_completed = true ∧
        (delete_entry_recursively gw cleanup fuel entry_uid ctOpt st0).1
          = (recursively_delete_entry gw fuel (defaultContentType ctOpt) entry_uid
              stA).1 ∧
        (delete_entry_recursively gw cleanup fuel entry_uid ctOpt st0).2.success
          = true)) := by
  unfold delete_entry_recursively
  dsimp only
  rcases hb : backup_entry_recursively gw cleanup (defaultContentType ctOpt)
    entry_uid st0 with ⟨stB, bok⟩
  dsimp only
  have hBA : APhase st0 stB := by
    have h := backup_aphase gw cleanup (defaultContentType ctOpt) entry_uid st0
    rw [hb] at h
    exact h
  have hsaveA : ∀ b : Bool, APhase stB
      (if b = true then save_backup_to_file stB entry_uid (defaultContentType ctOpt)
       else stB) := by
    intro b
    cases b with
    | true => exact save_backup_aphase stB entry_uid (defaultContentType ctOpt)
    | false => exact APhase.aphaseRfl stB
  set stB2 := (if bok = true then save_backup_to_file stB entry_uid
    (defaultContentType ctOpt) else stB) with hstB2
  have hB2 : APhase st0 stB2 := hBA.aphaseTrans (hsaveA bok)
  have hcompB2 : stB2.reference_analysis_completed = false := hB2.compEq.trans h0
  have hHS := hierarchy_structure gw fuel (defaultContentType ctOpt) entry_uid stB2
  rcases hh : analyze_entry_hierarchy_for_references gw fuel
    (defaultContentType ctOpt) entry_uid stB2 with ⟨stH, ok⟩
  rw [hh] at hHS
  dsimp only
  obtain ⟨⟨evsH, heH, hnH⟩, hprocH, hdryH, hokH, hfailH⟩ := hHS
  have hAP : (∃ evs, stH.trace = st0.trace ++ evs ∧
      ∀ e ∈ evs, isDeleteEvent e = false) ∧
      stH.processed_entries = st0.processed_entries ∧
      stH.dry_run = st0.dry_run := by
    obtain ⟨evsB, heB, hnB⟩ := hB2.traceND
    refine ⟨⟨evsB ++ evsH, by rw [heH, heB, List.append_assoc], ?_⟩,
      hprocH.trans hB2.procEq, hdryH.trans hB2.dryEq⟩
    intro e he
    rcases List.mem_append.mp he with h | h
    · exact hnB e h
    · exact hnH e h
  refine ⟨stH, hAP.1, hAP.2.1, hAP.2.2, ?_⟩
  cases ok with
  | false =>
    have hcompH : stH.reference_analysis_completed = false :=
      hfailH (Eq.refl _) hcompB2
    have hcond : (!(false : Bool) || !stH.reference_analysis_completed) = true := by
      simp
    rw [hcond, if_pos (Eq.refl _)]
    exact Or.inl ⟨Eq.refl _, Eq.refl _, Eq.refl _, hcompH⟩
  | true =>
    have hcompH : stH.reference_analysis_completed = true := hokH (Eq.refl _)
    have hcond : (!(true : Bool) || !stH.reference_analysis_completed) = false := by
      rw [hcompH]
      simp
    rw [hcond, if_neg (by simp : ¬ (false = true))]
    rcases hr : recursively_delete_entry gw fuel (defaultContentType ctOpt)
      entry_uid stH with ⟨stR, r⟩
    dsimp only
    refine Or.inr ⟨hcompH, ?_, Eq.refl _⟩
    rfl

/-- C1: if the reference-analysis phase fails or does not complete, the
top-level `delete_entry_recursively` returns `success=false` with error
`Reference analysis failed` and the trace contains no gateway delete
call for any node; and no entry is deleted unless analysis completed and
its recorded verdict has `to_be_deleted=true`. -/
theorem c1_fail_closed_deletion (gw : Gateway)
    (cleanup : Json → Except String Json) (fuel : Nat) (entry_uid : String)
    (ctOpt : Option String) (dry : Bool) :
    ((delete_entry_recursively gw cleanup fuel entry_uid ctOpt
        (initState dry)).1.reference_analysis_completed = false →
      (delete_entry_recursively gw cleanup fuel entry_uid ctOpt
        (initState dry)).2.success = false ∧
      (delete_entry_recursively gw cleanup fuel entry_uid ctOpt
        (initState dry)).2.error = some "Reference analysis failed" ∧
      ∀ c u, Event.deleteCall c u ∉
        (delete_entry_recursively gw cleanup fuel entry_uid ctOpt
          (initState dry)).1.trace) ∧
    (∀ c u, Event.deleteCall c u ∈
        (delete_entry_recursively gw cleanup fuel entry_uid ctOpt
          (initState dry)).1.trace →
      (delete_entry_recursively gw cleanup fuel entry_uid ctOpt
        (initState dry)).1.reference_analysis_completed = true ∧
      ∃ v, mapLookup (delete_entry_recursively gw cleanup fuel entry_uid ctOpt
          (initState dry)).1.reference_analysis (entryKey c u) = some v ∧
        v.to_be_deleted = true) := by
  obtain ⟨stA, ⟨evs, hev, hnd⟩, hproc, hdry, hcase⟩ :=
    der_structure gw cleanup fuel entry_uid ctOpt (initState dry) (Eq.refl _)
  have hAtrace : stA.trace = evs := by
    rw [hev]
    rfl
  have hnodelA : ∀ c u, Event.deleteCall c u ∉ stA.trace := by
    intro c u hmem
    rw [hAtrace] at hmem
    have := hnd _ hmem
    simp [isDeleteEvent] at this
  have hcntA : ∀ c u, delCount stA c u = 0 := by
    intro c u
    exact List.count_eq_zero.mpr (hnodelA c u)
  rcases hcase with ⟨hst, hsucc, herr, hcomp⟩ | ⟨hcomp, hst, hsucc⟩
  · constructor
    · intro _
      refine ⟨hsucc, herr, ?_⟩
      intro c u hmem
      rw [hst] at hmem
      exact hnodelA c u hmem
    · intro c u hmem
      rw [hst] at hmem
      exact absurd hmem (hnodelA c u)
  · have hSteps : Steps stA (delete_entry_recursively gw cleanup fuel entry_uid
        ctOpt (initState dry)).1 := by
      rw [hst]
      exact rde_steps gw fuel (defaultContentType ctOpt) entry_uid stA
    constructor
    · intro hfc
      rw [hSteps.compEq, hcomp] at hfc
      cases hfc
    · intro c u hmem
      have hpos : 0 < delCount (delete_entry_recursively gw cleanup fuel entry_uid
          ctOpt (initState dry)).1 c u := List.count_pos_iff.mpr hmem
      rcases hSteps.countStep c u with heq | ⟨_, _, _, hvc⟩
      · rw [heq, hcntA] at hpos
        cases hpos
      · obtain ⟨v, hv, hvt⟩ := hvc hcomp
        refine ⟨hSteps.compEq.trans hcomp, v, ?_, hvt⟩
        rw [hSteps.raEq]
        exact hv

/-- Witness for `c1_fail_closed_deletion`: with the gateway down, the
run aborts with the fail-closed error and an almost empty trace. -/
theorem c1_fail_closed_deletion_witness :
    (delete_entry_recursively downGateway okCleanup 3 "A" none
      (initState false)).2.success = false ∧
    (delete_entry_recursively downGateway okCleanup 3 "A" none
      (initState false)).2.error = some "Reference analysis failed" := by
  have h := (c1_fail_closed_deletion downGateway okCleanup 3 "A" none false).1
    (by decide)
  exact ⟨h.1, h.2.1⟩

/-- C5: calling the deletion executor on an EntryRef already in the
processed set returns the skip outcome immediately with the state (and
hence the gateway trace) unchanged; consequently, over a whole
`delete_entry_recursively` run, at most one gateway delete call is
issued per EntryRef. -/
theorem c5_processed_skip_idempotent :
    (∀ (gw : Gateway) (fuel : Nat) (ct uid : String) (st : DelState),
      keyMem st.processed_entries (entryKey ct uid) = true →
      recursively_delete_entry gw (fuel + 1) ct uid st
        = (st, .ret (.skipped none))) ∧
    (∀ (gw : Gateway) (cleanup : Json → Except String Json) (fuel : Nat)
       (entry_uid : String) (ctOpt : Option String) (dry : Bool) (c u : String),
      delCount (delete_entry_recursively gw cleanup fuel entry_uid ctOpt
        (initState dry)).1 c u ≤ 1) := by
  constructor
  · intro gw fuel ct uid st h
    simp only [recursively_delete_entry, h, if_true]
  · intro gw cleanup fuel entry_uid ctOpt dry c u
    obtain ⟨stA, ⟨evs, hev, hnd⟩, _, _, hcase⟩ :=
      der_structure gw cleanup fuel entry_uid ctOpt (initState dry) (Eq.refl _)
    have hcntA : delCount stA c u = 0 := by
      apply List.count_eq_zero.mpr
      intro hmem
      rw [show stA.trace = evs from by rw [hev]; rfl] at hmem
      have := hnd _ hmem
      simp [isDeleteEvent] at this
    rcases hcase with ⟨hst, _, _, _⟩ | ⟨_, hst, _⟩
    · rw [hst, hcntA]
      exact Nat.zero_le 1
    · have hSteps : Steps stA (delete_entry_recursively gw cleanup fuel entry_uid
          ctOpt (initState dry)).1 := by
        rw [hst]
        exact rde_steps gw fuel (defaultContentType ctOpt) entry_uid stA
      rcases hSteps.countStep c u with heq | ⟨hc1, _, _, _⟩
      · rw [heq, hcntA]
        exact Nat.zero_le 1
      · rw [hc1, hcntA]

/-- Witness for `c5_processed_skip_idempotent` at a concrete input: an
already-processed key is skipped with the state untouched. -/
theorem c5_processed_skip_idempotent_witness :
    recursively_delete_entry downGateway 1 "page" "X"
      { initState false with processed_entries := ["page/X"] }
      = ({ initState false with processed_entries := ["page/X"] },
         .ret (.skipped none)) := by
  exact c5_processed_skip_idempotent.1 downGateway 0 "page" "X"
    { initState false with processed_entries := ["page/X"] } (by decide)

/-- Trace shape of the `try` block for a node whose key is already
processed at entry: a delete-free middle segment (the fetch event plus
everything the children emit — never a delete of this node, whose key is
in the processed set), optionally followed by the node's own delete
call as the very last event. -/
theorem rdeCore_trace (gw : Gateway)
    (delFn : String → String → DelState → DelState × RStep)
    (hd : ∀ c u s, Steps s (delFn c u s).1) (ct uid : String) (st1 : DelState)
    (hmem1 : keyMem st1.processed_entries (entryKey ct uid) = true) :
    ∃ mid : List Event,
      Event.deleteCall ct uid ∉ mid ∧
      ((rdeCore gw delFn ct uid st1).1.trace = st1.trace ++ mid ∨
       (rdeCore gw delFn ct uid st1).1.trace
         = st1.trace ++ mid ++ [Event.deleteCall ct uid]) := by
  unfold rdeCore
  cases hge : gw.getEntry ct uid with
  | error e =>
    refine ⟨[Event.getEntryCall ct uid], by simp, Or.inl ?_⟩
    simp
  | ok entry_data =>
    dsimp only
    rcases hpn : process_nested_entries delFn
        ((entry_data.get "entry").getD (.obj []))
        { st1 with trace := st1.trace ++ [Event.getEntryCall ct uid] }
      with ⟨st3, excOpt⟩
    have hS23 : Steps { st1 with trace := st1.trace ++ [Event.getEntryCall ct uid] }
        st3 := by
      have h := pn_steps delFn hd ((entry_data.get "entry").getD (.obj []))
        { st1 with trace := st1.trace ++ [Event.getEntryCall ct uid] }
      rw [hpn] at h
      exact h
    obtain ⟨pnEvs, hpnEvs⟩ := hS23.traceExt
    have hnotin : Event.deleteCall ct uid ∉ pnEvs := by
      have hcnt := hS23.processedCount ct uid hmem1
      rw [show delCount st3 ct uid
          = delCount { st1 with trace := st1.trace ++ [Event.getEntryCall ct uid] }
              ct uid + pnEvs.count (Event.deleteCall ct uid) from by
            simp [delCount, hpnEvs, List.count_append]] at hcnt
      have hzero : pnEvs.count (Event.deleteCall ct uid) = 0 := by omega
      exact List.count_eq_zero.mp hzero
    have htr3 : st3.trace
        = st1.trace ++ (Event.getEntryCall ct uid :: pnEvs) := by
      rw [hpnEvs]
      simp
    refine ⟨Event.getEntryCall ct uid :: pnEvs, ?_, ?_⟩
    · intro hmem
      rcases List.mem_cons.mp hmem with h | h
      · cases h
      · exact hnotin h
    · cases excOpt with
      | some m => exact Or.inl htr3
      | none =>
        by_cases hdry : st3.dry_run = true
        · rw [if_pos hdry]
          exact Or.inl htr3
        · rw [if_neg hdry]
          by_cases hsucc : (gw.deleteEntry ct uid).success = true
          · rw [if_pos hsucc]
            refine Or.inr ?_
            show st3.trace ++ [Event.deleteCall ct uid] = _
            rw [htr3, List.append_assoc]
          · rw [if_neg hsucc]
            by_cases hprot : (gw.deleteEntry ct uid).protectedFlag = true
            · rw [if_pos hprot]
              refine Or.inr ?_
              show st3.trace ++ [Event.deleteCall ct uid] = _
              rw [htr3, List.append_assoc]
            · rw [if_neg hprot]
              refine Or.inr ?_
              show st3.trace ++ [Event.deleteCall ct uid] = _
              rw [htr3, List.append_assoc]

/-- In any call of the deletion executor, the node's own delete call —
when issued — is the last event the call emits: all nested-children
processing precedes it. -/
theorem rde_delete_last (gw : Gateway) :
    ∀ (fuel : Nat) (ct uid : String) (st : DelState) (evs : List Event),
      (recursively_delete_entry gw fuel ct uid st).1.trace = st.trace ++ evs →
      Event.deleteCall ct uid ∈ evs →
      ∃ pre, evs = pre ++ [Event.deleteCall ct uid]
  | 0, ct, uid, st, evs => by
    intro hev hmem
    have hnil : ([] : List Event) = evs :=
      List.append_cancel_left (show st.trace ++ [] = st.trace ++ evs by
        simpa [recursively_delete_entry] using hev)
    rw [← hnil] at hmem
    cases hmem
  | fuel + 1, ct, uid, st, evs => by
    intro hev hmem
    rw [recursively_delete_entry] at hev
    by_cases hp : keyMem st.processed_entries (entryKey ct uid) = true
    · rw [if_pos hp] at hev
      have hnil : ([] : List Event) = evs :=
        List.append_cancel_left (show st.trace ++ [] = st.trace ++ evs by
          simpa using hev)
      rw [← hnil] at hmem
      cases hmem
    · rw [if_neg hp] at hev
      dsimp only at hev
      cases hg : safetyGate
          { st with
            processed_entries := addKey st.processed_entries (entryKey ct uid) }
          (entryKey ct uid) with
      | some r =>
        rw [hg] at hev
        dsimp only at hev
        have hnil : ([] : List Event) = evs :=
          List.append_cancel_left (show st.trace ++ [] = st.trace ++ evs by
            simpa using hev)
        rw [← hnil] at hmem
        cases hmem
      | none =>
        rw [hg] at hev
        dsimp only at hev
        obtain ⟨mid, hnot, hcase⟩ := rdeCore_trace gw
          (fun c u s => recursively_delete_entry gw fuel c u s)
          (fun c u s => rde_steps gw fuel c u s) ct uid
          { st with
            processed_entries := addKey st.processed_entries (entryKey ct uid) }
          (keyMem_addKey_self _ _)
        rcases hcase with htr | htr
        · rw [htr] at hev
          have hev2 : st.trace ++ mid = st.trace ++ evs := hev
          have heq : mid = evs := List.append_cancel_left hev2
          rw [← heq] at hmem
          exact absurd hmem hnot
        · rw [htr] at hev
          have hev2 : st.trace ++ (mid ++ [Event.deleteCall ct uid])
              = st.trace ++ evs := by
            rw [← List.append_assoc]
            exact hev
          have heq : mid ++ [Event.deleteCall ct uid] = evs :=
            List.append_cancel_left hev2
          exact ⟨mid, heq.symm⟩

/-- C6: children of a node are always fully processed before the node's
own delete call is issued — in every executor call the node's delete
call, when present among the emitted events, is the last of them; and
for the concrete chain `A → B → C` (each child nested in its parent's
payload, all three verdicts `to_be_deleted=true`) the gateway delete
calls happen in the order C, then B, then A. -/
theorem c6_children_deleted_before_parent :
    (∀ (gw : Gateway) (fuel : Nat) (ct uid : String) (st : DelState)
       (evs : List Event),
      (recursively_delete_entry gw fuel ct uid st).1.trace = st.trace ++ evs →
      Event.deleteCall ct uid ∈ evs →
      ∃ pre, evs = pre ++ [Event.deleteCall ct uid]) ∧
    deleteCallsOf
      (recursively_delete_entry chainGateway 4 "page" "A" chainAnalyzedState).1.trace
      = [.deleteCall "page" "C", .deleteCall "page" "B", .deleteCall "page" "A"] := by
  constructor
  · exact fun gw fuel ct uid st evs => rde_delete_last gw fuel ct uid st evs
  · decide

/-- Witness for `c6_children_deleted_before_parent`: in the chain run,
the root's delete call is the last emitted event. -/
theorem c6_children_deleted_before_parent_witness :
    ∃ pre, (recursively_delete_entry chainGateway 4 "page" "A"
        chainAnalyzedState).1.trace = pre ++ [Event.deleteCall "page" "A"] := by
  have h := c6_children_deleted_before_parent.1 chainGateway 4 "page" "A"
    chainAnalyzedState
    (recursively_delete_entry chainGateway 4 "page" "A" chainAnalyzedState).1.trace
    (List.nil_append _).symm (by decide)
  obtain ⟨pre, hpre⟩ := h
  exact ⟨pre, hpre⟩

/-! ## C8: rollback batch exclusion -/

/-- The safe-to-delete rollback verdict. -/
def safeRollVerdict : RollVerdict :=
  { to_be_deleted := true, references := [],
    reason := "No external references found - safe to delete" }

/-- C8: for created entries X and Y where the gateway reports no
referrer outside the created batch for either (in particular, Y's
referrer X belongs to the batch and therefore does not count as
external), rollback classifies both as safe to delete, protects
neither, and deletes both in reverse creation order: Y's delete call
precedes X's. -/
theorem c8_rollback_batch_exclusion (gw : Gateway) (x y : CreatedEntry)
    (rx ry : List Json)
    (hx : gw.getEntryReferences x.content_type x.uid = .ok rx)
    (hy : gw.getEntryReferences y.content_type y.uid = .ok ry)
    (hxext : rx.filter (isExternalToBatch [x.uid, y.uid]) = [])
    (hyext : ry.filter (isExternalToBatch [x.uid, y.uid]) = [])
    (hdelx : (gw.deleteEntry x.content_type x.uid).success = true)
    (hdely : (gw.deleteEntry y.content_type y.uid).success = true) :
    (rollback_created_entries gw [x, y]).safe_to_delete = [x, y] ∧
    (rollback_created_entries gw [x, y]).protected_entries = [] ∧
    (rollback_created_entries gw [x, y]).trace
      = [Event.deleteCall y.content_type y.uid,
         Event.deleteCall x.content_type x.uid] ∧
    (rollback_created_entries gw [x, y]).deleted_count = 2 ∧
    (rollback_created_entries gw [x, y]).failed_count = 0 := by
  have huids : ([x, y].map (·.uid)) = [x.uid, y.uid] := rfl
  have hstep1 : rollbackAnalyzeStep gw [x.uid, y.uid] [] x
      = [(entryKey x.content_type x.uid, safeRollVerdict)] := by
    unfold rollbackAnalyzeStep
    rw [hx]
    simp [hxext, mapSet, safeRollVerdict]
  have hstep2 : rollbackAnalyzeStep gw [x.uid, y.uid]
      [(entryKey x.content_type x.uid, safeRollVerdict)] y
      = mapSet [(entryKey x.content_type x.uid, safeRollVerdict)]
          (entryKey y.content_type y.uid) safeRollVerdict := by
    unfold rollbackAnalyzeStep
    rw [hy]
    simp [hyext, safeRollVerdict]
  have hanalysis : analyze_rollback_references gw [x, y]
      = mapSet [(entryKey x.content_type x.uid, safeRollVerdict)]
          (entryKey y.content_type y.uid) safeRollVerdict := by
    unfold analyze_rollback_references
    rw [huids]
    simp only [List.foldl, hstep1, hstep2]
  have hlky : mapLookup (mapSet [(entryKey x.content_type x.uid, safeRollVerdict)]
      (entryKey y.content_type y.uid) safeRollVerdict)
      (entryKey y.content_type y.uid) = some safeRollVerdict :=
    mapLookup_mapSet_self _ _ _
  have hlkx : mapLookup (mapSet [(entryKey x.content_type x.uid, safeRollVerdict)]
      (entryKey y.content_type y.uid) safeRollVerdict)
      (entryKey x.content_type x.uid) = some safeRollVerdict := by
    by_cases he : entryKey x.content_type x.uid = entryKey y.content_type y.uid
    · rw [he]
      exact mapLookup_mapSet_self _ _ _
    · rw [mapLookup_mapSet_ne _ _ _ _ he]
      simp [mapLookup]
  have hvx : rollbackVerdictOf (analyze_rollback_references gw [x, y]) x
      = safeRollVerdict := by
    unfold rollbackVerdictOf
    rw [hanalysis, hlkx]
    rfl
  have hvy : rollbackVerdictOf (analyze_rollback_references gw [x, y]) y
      = safeRollVerdict := by
    unfold rollbackVerdictOf
    rw [hanalysis, hlky]
    rfl
  have hloop : rollbackDeleteLoop gw [y, x] (0, 0, [])
      = (2, 0, [Event.deleteCall y.content_type y.uid,
                Event.deleteCall x.content_type x.uid]) := by
    unfold rollbackDeleteLoop
    dsimp only
    rw [if_pos hdely]
    unfold rollbackDeleteLoop
    dsimp only
    rw [if_pos hdelx]
    unfold rollbackDeleteLoop
    simp
  unfold rollback_created_entries
  rw [if_neg (by simp : ¬ ([x, y].isEmpty = true))]
  simp only [List.filter_cons, List.filter_nil, hvx, hvy, safeRollVerdict]
  refine ⟨by simp, by simp, ?_, ?_, ?_⟩ <;>
    simp [show List.reverse [x, y] = [y, x] from rfl, hloop]

/-- Witness for `c8_rollback_batch_exclusion`: X references Y, nothing
external references either, both are deleted in reverse order. -/
theorem c8_rollback_batch_exclusion_witness :
    (rollback_created_entries
      { getEntry := fun _ _ => .error "404"
        getEntryReferences := fun _ uid =>
          if uid = "Y" then .ok [refOf "X"] else .ok []
        deleteEntry := fun _ _ =>
          { success := true, already_deleted := false, protectedFlag := false,
            error := none } }
      [⟨"X", "page", "x"⟩, ⟨"Y", "page", "y"⟩]).trace
      = [Event.deleteCall "page" "Y", Event.deleteCall "page" "X"] := by
  have h := c8_rollback_batch_exclusion
    { getEntry := fun _ _ => .error "404"
      getEntryReferences := fun _ uid =>
        if uid = "Y" then .ok [refOf "X"] else .ok []
      deleteEntry := fun _ _ =>
        { success := true, already_deleted := false, protectedFlag := false,
          error := none } }
    ⟨"X", "page", "x"⟩ ⟨"Y", "page", "y"⟩ [] [refOf "X"]
    (by rfl) (by rfl) (by rfl) (by rfl) (by rfl) (by rfl)
  exact h.2.2.1

/-! ## C9: backup independence

None of the analysis or deletion functions reads or writes the
backup-only fields (`backed_up_entries`, `backup_file_path`, grouped in
`bk`), and the backup phase touches nothing but those fields and the one
fetch-trace event it always emits; so the run outcome is the same for
every cleanup oracle.  The frame lemmas below make the first half
precise: each phase function commutes with overwriting `bk`. -/

theorem fetch_entry_details_bkFrame (gw : Gateway) (st : DelState)
    (ct uid : String) (b : BackupPart) :
    fetch_entry_details gw { st with bk := b } ct uid
      = ({ (fetch_entry_details gw st ct uid).1 with bk := b },
         (fetch_entry_details gw st ct uid).2) := by
  unfold fetch_entry_details
  dsimp only
  cases hg : gw.getEntry ct uid with
  | error e => rfl
  | ok response =>
    dsimp only
    cases hr : response.get "entry" with
    | none => rfl
    | some entry =>
      dsimp only
      by_cases ht : pyTruthy entry = true
      · rw [if_pos ht, if_pos ht]
      · rw [if_neg ht, if_neg ht]

theorem analyze_entry_references_bkFrame (gw : Gateway) (ct uid p : String)
    (st : DelState) (b : BackupPart) :
    analyze_entry_references gw ct uid p { st with bk := b }
      = ({ (analyze_entry_references gw ct uid p st).1 with bk := b },
         (analyze_entry_references gw ct uid p st).2) := by
  unfold analyze_entry_references
  dsimp only
  cases hlk : mapLookup st.reference_analysis (entryKey ct uid) with
  | some v => rfl
  | none =>
    rw [fetch_entry_details_bkFrame gw st ct uid b]
    rcases hf : fetch_entry_details gw st ct uid with ⟨s1, eo⟩
    cases eo with
    | none => rfl
    | some entry =>
      dsimp only
      by_cases hm : check_migration_tag entry = true
      · rw [if_pos hm, if_pos hm]
        cases hr : gw.getEntryReferences ct uid with
        | error e => rfl
        | ok allRefs =>
          dsimp only
          by_cases hl :
              (allRefs.filter (fun r => !(jsonIsStr (refEntryUid r) p))).length > 0
          · rw [if_pos hl, if_pos hl]
          · rw [if_neg hl, if_neg hl]
      · rw [if_neg hm, if_neg hm]

theorem inheritLoop_bkFrame (pk : String) :
    ∀ (pairs : List (Json × Json)) (st : DelState) (b : BackupPart),
      inheritLoop pk pairs { st with bk := b }
        = { inheritLoop pk pairs st with bk := b }
  | [], st, b => rfl
  | q :: rest, st, b => by
    obtain ⟨cJ, uJ⟩ := q
    simp only [inheritLoop]
    by_cases h : (mapLookup st.reference_analysis
        (pyStr cJ ++ "/" ++ pyStr uJ)).isSome = true
    · rw [if_pos h, if_pos h]
      exact inheritLoop_bkFrame pk rest st b
    · rw [if_neg h, if_neg h]
      exact inheritLoop_bkFrame pk rest
        { st with
            reference_analysis :=
              mapSet st.reference_analysis (pyStr cJ ++ "/" ++ pyStr uJ)
                (inheritedVerdict pk),
            referenced_entries :=
              addKey st.referenced_entries (pyStr cJ ++ "/" ++ pyStr uJ) } b

theorem traverseChildLoop_bkFrame (gw : Gateway)
    (walk : String → String → Json → Option String → DelState → DelState × Bool)
    (hw : ∀ (c u : String) (d : Json) (p : Option String) (s : DelState)
      (b : BackupPart),
      walk c u d p { s with bk := b }
        = ({ (walk c u d p s).1 with bk := b }, (walk c u d p s).2))
    (entry_uid : String) :
    ∀ (pairs : List (Json × Json)) (st : DelState) (b : BackupPart),
      traverseChildLoop gw walk entry_uid pairs { st with bk := b }
        = { traverseChildLoop gw walk entry_uid pairs st with bk := b }
  | [], st, b => rfl
  | q :: rest, st, b => by
    obtain ⟨cJ, uJ⟩ := q
    simp only [traverseChildLoop]
    rw [fetch_entry_details_bkFrame gw st (pyStr cJ) (pyStr uJ) b]
    rcases hf : fetch_entry_details gw st (pyStr cJ) (pyStr uJ) with ⟨s1, dO⟩
    cases dO with
    | none => exact traverseChildLoop_bkFrame gw walk hw entry_uid rest s1 b
    | some dd =>
      dsimp only
      rw [hw (pyStr cJ) (pyStr uJ) dd (some entry_uid) s1 b]
      dsimp only
      exact traverseChildLoop_bkFrame gw walk hw entry_uid rest
        (walk (pyStr cJ) (pyStr uJ) dd (some entry_uid) s1).1 b

theorem thrf_bkFrame (gw : Gateway) :
    ∀ (fuel : Nat) (ct uid : String) (d : Json) (root : String)
      (imm : Option String) (st : DelState) (b : BackupPart),
      traverse_hierarchy_root_first gw fuel ct uid d root imm { st with bk := b }
        = ({ (traverse_hierarchy_root_first gw fuel ct uid d root imm st).1 with
              bk := b },
           (traverse_hierarchy_root_first gw fuel ct uid d root imm st).2)
  | 0, ct, uid, d, root, imm, st, b => rfl
  | fuel + 1, ct, uid, d, root, imm, st, b => by
    simp only [traverse_hierarchy_root_first]
    by_cases h : (mapLookup st.reference_analysis (entryKey ct uid)).isSome = true
    · rw [if_pos h, if_pos h]
    · rw [if_neg h, if_neg h]
      rw [analyze_entry_references_bkFrame gw ct uid
        (parentForFiltering imm root) st b]
      rcases ha : analyze_entry_references gw ct uid
          (parentForFiltering imm root) st with ⟨s1, v⟩
      dsimp only
      by_cases hv : v.to_be_deleted = true
      · rw [if_pos hv, if_pos hv]
        rw [traverseChildLoop_bkFrame gw
          (fun c u dd pp s =>
            traverse_hierarchy_root_first gw fuel c u dd root pp s)
          (fun c u dd pp s bb => thrf_bkFrame gw fuel c u dd root pp s bb)
          uid (find_nested_entries d []) s1 b]
      · rw [if_neg hv, if_neg hv]
        rw [inheritLoop_bkFrame (entryKey ct uid) (find_nested_entries d []) s1 b]

theorem aehr_bkFrame (gw : Gateway) (fuel : Nat) (ct uid : String)
    (st : DelState) (b : BackupPart) :
    analyze_entry_hierarchy_for_references gw fuel ct uid { st with bk := b }
      = ({ (analyze_entry_hierarchy_for_references gw fuel ct uid st).1 with
            bk := b },
         (analyze_entry_hierarchy_for_references gw fuel ct uid st).2) := by
  unfold analyze_entry_hierarchy_for_references
  dsimp only
  rw [fetch_entry_details_bkFrame gw st ct uid b]
  rcases hf : fetch_entry_details gw st ct uid with ⟨s1, ro⟩
  cases ro with
  | none => rfl
  | some root_entry_data =>
    dsimp only
    rw [thrf_bkFrame gw fuel ct uid root_entry_data uid none s1 b]
    rcases ht : traverse_hierarchy_root_first gw fuel ct uid root_entry_data
        uid none s1 with ⟨s2, raised⟩
    dsimp only
    cases raised
    · rfl
    · rfl

mutual
theorem pn_bkFrame (delFn : String → String → DelState → DelState × RStep)
    (hd : ∀ (c u : String) (s : DelState) (b : BackupPart),
      delFn c u { s with bk := b }
        = ({ (delFn c u s).1 with bk := b }, (delFn c u s).2)) :
    ∀ (j : Json) (st : DelState) (b : BackupPart),
      process_nested_entries delFn j { st with bk := b }
        = ({ (process_nested_entries delFn j st).1 with bk := b },
           (process_nested_entries delFn j st).2)
  | .null, st, b => rfl
  | .bool v, st, b => rfl
  | .num v, st, b => rfl
  | .str v, st, b => rfl
  | .arr items, st, b => pnl_bkFrame delFn hd items st b
  | .obj fields, st, b => by
    simp only [process_nested_entries]
    cases h1 : lookupField fields "_content_type_uid" with
    | none =>
      cases h2 : lookupField fields "uid" with
      | none => exact pnf_bkFrame delFn hd fields st b
      | some uJ => exact pnf_bkFrame delFn hd fields st b
    | some cJ =>
      cases h2 : lookupField fields "uid" with
      | none => exact pnf_bkFrame delFn hd fields st b
      | some uJ =>
        dsimp only
        rw [hd (pyStr cJ) (pyStr uJ) st b]
        rcases hdl : delFn (pyStr cJ) (pyStr uJ) st with ⟨s1, rs⟩
        dsimp only
        cases rs with
        | ret r => rfl
        | exc m => rfl

theorem pnl_bkFrame (delFn : String → String → DelState → DelState × RStep)
    (hd : ∀ (c u : String) (s : DelState) (b : BackupPart),
      delFn c u { s with bk := b }
        = ({ (delFn c u s).1 with bk := b }, (delFn c u s).2)) :
    ∀ (items : List Json) (st : DelState) (b : BackupPart),
      processNestedList delFn items { st with bk := b }
        = ({ (processNestedList delFn items st).1 with bk := b },
           (processNestedList delFn items st).2)
  | [], st, b => rfl
  | x :: xs, st, b => by
    simp only [processNestedList]
    rw [pn_bkFrame delFn hd x st b]
    rcases hx : process_nested_entries delFn x st with ⟨s1, mOpt⟩
    dsimp only
    cases mOpt with
    | none => exact pnl_bkFrame delFn hd xs s1 b
    | some m => rfl

theorem pnf_bkFrame (delFn : String → String → DelState → DelState × RStep)
    (hd : ∀ (c u : String) (s : DelState) (b : BackupPart),
      delFn c u { s with bk := b }
        = ({ (delFn c u s).1 with bk := b }, (delFn c u s).2)) :
    ∀ (fields : List (String × Json)) (st : DelState) (b : BackupPart),
      processNestedFields delFn fields { st with bk := b }
        = ({ (processNestedFields delFn fields st).1 with bk := b },
           (processNestedFields delFn fields st).2)
  | [], st, b => rfl
  | f :: rest, st, b => by
    obtain ⟨k, v⟩ := f
    simp only [processNestedFields]
    rw [pn_bkFrame delFn hd v st b]
    rcases hx : process_nested_entries delFn v st with ⟨s1, mOpt⟩
    dsimp only
    cases mOpt with
    | none => exact pnf_bkFrame delFn hd rest s1 b
    | some m => rfl
end

theorem rdeCore_bkFrame (gw : Gateway)
    (delFn : String → String → DelState → DelState × RStep)
    (hd : ∀ (c u : String) (s : DelState) (b : BackupPart),
      delFn c u { s with bk := b }
        = ({ (delFn c u s).1 with bk := b }, (delFn c u s).2))
    (ct uid : String) (st : DelState) (b : BackupPart) :
    rdeCore gw delFn ct uid { st with bk := b }
      = ({ (rdeCore gw delFn ct uid st).1 with bk := b },
         (rdeCore gw delFn ct uid st).2) := by
  unfold rdeCore
  dsimp only
  cases hg : gw.getEntry ct uid with
  | error e => rfl
  | ok entry_data =>
    dsimp only
    rw [pn_bkFrame delFn hd ((entry_data.get "entry").getD (.obj []))
      { st with trace := st.trace ++ [Event.getEntryCall ct uid] } b]
    rcases hpn : process_nested_entries delFn
        ((entry_data.get "entry").getD (.obj []))
        { st with trace := st.trace ++ [Event.getEntryCall ct uid] }
      with ⟨s3, eo⟩
    dsimp only
    cases eo with
    | some m => rfl
    | none =>
      by_cases hdry : s3.dry_run = true
      · rw [if_pos hdry, if_pos hdry]
      · rw [if_neg hdry, if_neg hdry]
        dsimp only
        by_cases hsucc : (gw.deleteEntry ct uid).success = true
        · rw [if_pos hsucc, if_pos hsucc]
        · rw [if_neg hsucc, if_neg hsucc]
          by_cases hprot : (gw.deleteEntry ct uid).protectedFlag = true
          · rw [if_pos hprot, if_pos hprot]
          · rw [if_neg hprot, if_neg hprot]

theorem rde_bkFrame (gw : Gateway) :
    ∀ (fuel : Nat) (ct uid : String) (st : DelState) (b : BackupPart),
      recursively_delete_entry gw fuel ct uid { st with bk := b }
        = ({ (recursively_delete_entry gw fuel ct uid st).1 with bk := b },
           (recursively_delete_entry gw fuel ct uid st).2)
  | 0, ct, uid, st, b => rfl
  | fuel + 1, ct, uid, st, b => by
    simp only [recursively_delete_entry]
    by_cases hp : keyMem st.processed_entries (entryKey ct uid) = true
    · rw [if_pos hp, if_pos hp]
    · rw [if_neg hp, if_neg hp]
      have hsg : safetyGate
          { st with
            processed_entries := addKey st.processed_entries (entryKey ct uid),
            bk := b } (entryKey ct uid)
          = safetyGate
          { st with
            processed_entries := addKey st.processed_entries (entryKey ct uid) }
            (entryKey ct uid) := rfl
      rw [hsg]
      cases hgate : safetyGate
          { st with
            processed_entries := addKey st.processed_entries (entryKey ct uid) }
          (entryKey ct uid) with
      | some r => rfl
      | none =>
        dsimp only
        exact rdeCore_bkFrame gw
          (fun c u s => recursively_delete_entry gw fuel c u s)
          (fun c u s bb => rde_bkFrame gw fuel c u s bb) ct uid
          { st with
            processed_entries := addKey st.processed_entries (entryKey ct uid) } b

/-- The backup phase only emits the root fetch event and rewrites the
backup fields, whatever the cleanup oracle does. -/
theorem backup_entry_recursively_bkOnly (gw : Gateway)
    (cleanup : Json → Except String Json) (ct uid : String) (st : DelState) :
    ∃ b, (backup_entry_recursively gw cleanup ct uid st).1
      = { st with trace := st.trace ++ [Event.getEntryCall ct uid], bk := b } := by
  unfold backup_entry_recursively
  dsimp only
  cases hg : gw.getEntry ct uid with
  | error e => exact ⟨st.bk, rfl⟩
  | ok entry_data =>
    dsimp only
    cases hc : cleanup ((entry_data.get "entry").getD (.obj [])) with
    | error e => exact ⟨st.bk, rfl⟩
    | ok cleaned => exact ⟨_, rfl⟩

/-- Writing the backup file touches only the backup fields. -/
theorem save_backup_to_file_bkOnly (st : DelState) (root_entry_uid ct : String) :
    ∃ b, save_backup_to_file st root_entry_uid ct = { st with bk := b } := by
  unfold save_backup_to_file
  cases hlk : mapLookup st.bk.backed_up_entries (entryKey ct root_entry_uid) with
  | some r0 => exact ⟨_, rfl⟩
  | none => exact ⟨st.bk, rfl⟩

/-- C9: backup success or failure never changes any deletion outcome.
Two runs of `delete_entry_recursively` that differ only in the cleanup
oracle of the backup phase (in particular, one whose backup succeeds and
one whose backup fails) produce, on identical gateway responses, the
same `success` flag and `error`, identical `deleted_entries`,
`would_delete_entries` and `failed_deletions`, and final run states that
agree on every field but the backup fields — in particular the traces
are equal, so the very same gateway delete calls are issued.  Backup
failure is thereby non-fatal: the run proceeds to analysis and deletion
exactly as if the backup had succeeded. -/
theorem c9_backup_independence (gw : Gateway)
    (cleanupA cleanupB : Json → Except String Json) (fuel : Nat)
    (entry_uid : String) (ctOpt : Option String) (st : DelState) :
    (delete_entry_recursively gw cleanupA fuel entry_uid ctOpt st).2.success
      = (delete_entry_recursively gw cleanupB fuel entry_uid ctOpt st).2.success ∧
    (delete_entry_recursively gw cleanupA fuel entry_uid ctOpt st).2.error
      = (delete_entry_recursively gw cleanupB fuel entry_uid ctOpt st).2.error ∧
    (delete_entry_recursively gw cleanupA fuel entry_uid ctOpt st).2.deleted_entries
      = (delete_entry_recursively gw cleanupB fuel entry_uid ctOpt
          st).2.deleted_entries ∧
    (delete_entry_recursively gw cleanupA fuel entry_uid ctOpt
        st).2.would_delete_entries
      = (delete_entry_recursively gw cleanupB fuel entry_uid ctOpt
          st).2.would_delete_entries ∧
    (delete_entry_recursively gw cleanupA fuel entry_uid ctOpt
        st).2.failed_deletions
      = (delete_entry_recursively gw cleanupB fuel entry_uid ctOpt
          st).2.failed_deletions ∧
    ({ (delete_entry_recursively gw cleanupA fuel entry_uid ctOpt st).1 with
        bk := st.bk }
      = { (delete_entry_recursively gw cleanupB fuel entry_uid ctOpt st).1 with
          bk := st.bk }) := by
  have hshape : ∀ cl : Json → Except String Json,
      ∃ b : BackupPart,
        delete_entry_recursively gw cl fuel entry_uid ctOpt st
          = (match analyze_entry_hierarchy_for_references gw fuel
                (defaultContentType ctOpt) entry_uid
                { st with trace := st.trace
                    ++ [Event.getEntryCall (defaultContentType ctOpt) entry_uid] }
              with
             | (sA, aok) =>
               if !aok || !sA.reference_analysis_completed then
                 ({ sA with bk := b },
                  { success := false, error := some "Reference analysis failed",
                    entry_uid := entry_uid,
                    content_type_uid := defaultContentType ctOpt,
                    dry_run := sA.dry_run, deleted_entries := [],
                    would_delete_entries := [], failed_deletions := [],
                    total_deleted := 0, total_would_delete := 0,
                    total_failed := 0, backup_total := 0,
                    backup_file_path := none, backup_success := false })
               else
                 match recursively_delete_entry gw fuel
                     (defaultContentType ctOpt) entry_uid sA with
                 | (sD, _) =>
                   ({ sD with bk := b },
                    { success := true, error := none, entry_uid := entry_uid,
                      content_type_uid := defaultContentType ctOpt,
                      dry_run := sD.dry_run,
                      deleted_entries := sD.deleted_entries,
                      would_delete_entries := sD.would_delete_entries,
                      failed_deletions := sD.failed_deletions,
                      total_deleted := sD.deleted_entries.length,
                      total_would_delete := sD.would_delete_entries.length,
                      total_failed := sD.failed_deletions.length,
                      backup_total := b.backed_up_entries.length,
                      backup_file_path := b.backup_file_path,
                      backup_success := b.backed_up_entries.length > 0 })) := by
    intro cl
    unfold delete_entry_recursively
    dsimp only
    rcases hbk : backup_entry_recursively gw cl (defaultContentType ctOpt)
        entry_uid st with ⟨sB, bs⟩
    obtain ⟨b0, hb0⟩ := backup_entry_recursively_bkOnly gw cl
      (defaultContentType ctOpt) entry_uid st
    rw [hbk] at hb0
    dsimp only at hb0
    cases bs with
    | false =>
      refine ⟨b0, ?_⟩
      dsimp only
      rw [if_neg (by decide : ¬ ((false : Bool) = true)), hb0]
      rw [aehr_bkFrame gw fuel (defaultContentType ctOpt) entry_uid
        { st with trace := st.trace
            ++ [Event.getEntryCall (defaultContentType ctOpt) entry_uid] } b0]
      rcases ha : analyze_entry_hierarchy_for_references gw fuel
          (defaultContentType ctOpt) entry_uid
          { st with trace := st.trace
              ++ [Event.getEntryCall (defaultContentType ctOpt) entry_uid] }
        with ⟨sA, aok⟩
      dsimp only
      by_cases hcnd : (!aok || !sA.reference_analysis_completed) = true
      · rw [if_pos hcnd, if_pos hcnd]
      · rw [if_neg hcnd, if_neg hcnd]
        rw [rde_bkFrame gw fuel (defaultContentType ctOpt) entry_uid sA b0]
    | true =>
      obtain ⟨b1, hs⟩ := save_backup_to_file_bkOnly sB entry_uid
        (defaultContentType ctOpt)
      refine ⟨b1, ?_⟩
      dsimp only
      rw [if_pos rfl, hs, hb0]
      rw [aehr_bkFrame gw fuel (defaultContentType ctOpt) entry_uid
        { st with trace := st.trace
            ++ [Event.getEntryCall (defaultContentType ctOpt) entry_uid] } b1]
      rcases ha : analyze_entry_hierarchy_for_references gw fuel
          (defaultContentType ctOpt) entry_uid
          { st with trace := st.trace
              ++ [Event.getEntryCall (defaultContentType ctOpt) entry_uid] }
        with ⟨sA, aok⟩
      dsimp only
      by_cases hcnd : (!aok || !sA.reference_analysis_completed) = true
      · rw [if_pos hcnd, if_pos hcnd]
      · rw [if_neg hcnd, if_neg hcnd]
        rw [rde_bkFrame gw fuel (defaultContentType ctOpt) entry_uid sA b1]
  obtain ⟨bA, hA⟩ := hshape cleanupA
  obtain ⟨bB, hB⟩ := hshape cleanupB
  rw [hA, hB]
  rcases ha : analyze_entry_hierarchy_for_references gw fuel
      (defaultContentType ctOpt) entry_uid
      { st with trace := st.trace
          ++ [Event.getEntryCall (defaultContentType ctOpt) entry_uid] }
    with ⟨sA, aok⟩
  dsimp only
  by_cases hcnd : (!aok || !sA.reference_analysis_completed) = true
  · simp only [if_pos hcnd]
    refine ⟨?_, ?_, ?_, ?_, ?_, ?_⟩ <;> trivial
  · simp only [if_neg hcnd]
    rcases hdel : recursively_delete_entry gw fuel (defaultContentType ctOpt)
        entry_uid sA with ⟨sD, r0⟩
    refine ⟨?_, ?_, ?_, ?_, ?_, ?_⟩ <;> trivial

/-! ## C10: process exit codes -/

/-- C10 as stated is false on the code: a run cancelled at the
interactive `DELETE` confirmation exits with code 0, not 1 —
`main` reaches `sys.exit(0)` (`delete_entry_utility.py` line 616). -/
theorem c10_cancellation_counterexample :
    main_exit_code ["blt123", "dev"] "no" (.ok ()) downGateway okCleanup 1 = 0 := by
  decide

/-- C10 (amended): the exit code is 0 on success — including dry-run —
and on user cancellation at the `DELETE` confirmation; it is 1 on any
failure; and for every run that produces a result, the exit code is
non-zero iff the result's success flag is false. -/
theorem c10_exit_codes (args : List String) (user_input : String)
    (initRes : Except String Unit) (gw : Gateway)
    (cleanup : Json → Except String Json) (fuel : Nat)
    (hhelp : args.contains "--help" = false)
    (hh : args.contains "-h" = false)
    (hlen : ¬ args.length < 2)
    (henv : validEnvironments.contains (args.getD 1 "") = true) :
    (args.contains "--dry-run" = false → pyStrip user_input ≠ "DELETE" →
      main_exit_code args user_input initRes gw cleanup fuel = 0) ∧
    (∀ e, initRes = .error e →
      (args.contains "--dry-run" = true ∨ pyStrip user_input = "DELETE") →
      main_exit_code args user_input initRes gw cleanup fuel = 1) ∧
    ((args.contains "--dry-run" = true ∨ pyStrip user_input = "DELETE") →
      ∀ u, initRes = .ok u →
      (main_exit_code args user_input initRes gw cleanup fuel ≠ 0 ↔
        (delete_entry_recursively gw cleanup fuel (args.headD "")
          (parsedContentType args)
          (initState (args.contains "--dry-run"))).2.success = false)) := by
  have hnothelp : (args.contains "--help" || args.contains "-h") = false := by
    rw [hhelp, hh]
    rfl
  have hred : ∀ (c : Bool),
      (args.contains "--dry-run" = true ∨ pyStrip user_input = "DELETE") →
      args.contains "--dry-run" = c →
      main_exit_code args user_input initRes gw cleanup fuel
        = (match initRes with
           | .error _ => 1
           | .ok _ =>
             if (delete_entry_recursively gw cleanup fuel (args.headD "")
                 (parsedContentType args)
                 (initState (args.contains "--dry-run"))).2.success then 0
             else 1) := by
    intro c hconf _
    unfold main_exit_code
    rw [hnothelp, if_neg (by simp), if_neg hlen, if_neg (by rw [henv]; simp)]
    rw [if_neg ?hcond]
    case hcond =>
      intro hc
      rcases hconf with hdry | hdel
      · rw [hdry] at hc
        simp at hc
      · exact of_decide_eq_true (Bool.and_eq_true_iff.mp hc).2 hdel
  refine ⟨?_, ?_, ?_⟩
  · intro hdry hinput
    unfold main_exit_code
    rw [hnothelp, if_neg (by simp), if_neg hlen, if_neg (by rw [henv]; simp),
      if_pos (by rw [hdry]; simpa using hinput)]
  · intro e hinit hconf
    rw [hred (args.contains "--dry-run") hconf (Eq.refl _), hinit]
  · intro hconf u hinit
    rw [hred (args.contains "--dry-run") hconf (Eq.refl _), hinit]
    dsimp only
    by_cases hs : (delete_entry_recursively gw cleanup fuel (args.headD "")
        (parsedContentType args)
        (initState (args.contains "--dry-run"))).2.success = true
    · rw [if_pos hs]
      constructor
      · intro hne
        exact absurd (Eq.refl _) hne
      · intro hfalse
        rw [hs] at hfalse
        cases hfalse
    · rw [if_neg hs]
      constructor
      · intro _
        revert hs
        cases (delete_entry_recursively gw cleanup fuel (args.headD "")
          (parsedContentType args)
          (initState (args.contains "--dry-run"))).2.success <;> simp
      · intro _
        simp

/-- Witness for `c10_exit_codes`: a cancelled non-dry run on valid
arguments exits 0. -/
theorem c10_exit_codes_witness :
    main_exit_code ["blt123", "dev"] "nope" (.ok ()) downGateway okCleanup 1
      = 0 := by
  have h := (c10_exit_codes ["blt123", "dev"] "nope" (.ok ()) downGateway
    okCleanup 1 (by decide) (by decide) (by decide) (by decide)).1
    (by decide) (by decide)
  exact h

end CsmDelete
